import Mathlib

/-!
Verification development for the portfolio-choice one-period solver of the
BufferStockTheory repository
(src/Code/Python/src/econ-ark/HARK/ConsumptionSaving/ConsPortfolioModel.py).

The Python source is shallowly embedded over the rationals.  Machine floats
are modelled by exact rational arithmetic; the CRRA utility primitives
(imported by the source from HARK.ConsumptionSaving.ConsIndShockModel, a
repository file that is not available under src/) are modelled from the
spec as an abstract kit of pure functions, kept as explicit parameters so
that every theorem quantifies over them.  Likewise the interpolation
classes and the expectation operator (HARK.interpolation and
HARK.distribution, also repository files not under src/) are modelled from
the words of the spec, sections 4.1 and 4.3.
-/

namespace ConsPortfolioModel

/-- Minimum of a list of rationals (np.min); 0 on the empty list. -/
def listMin : List ℚ → ℚ
  | [] => 0
  | x :: xs => xs.foldl min x

/-- Maximum of a list of rationals (np.max); 0 on the empty list. -/
def listMax : List ℚ → ℚ
  | [] => 0
  | x :: xs => xs.foldl max x

/-- Auxiliary accumulator loop for `argmaxIdx`. -/
def argmaxAux (bestIdx : Nat) (bestVal : ℚ) (curIdx : Nat) : List ℚ → Nat
  | [] => bestIdx
  | x :: xs =>
    if bestVal < x then argmaxAux curIdx x (curIdx + 1) xs
    else argmaxAux bestIdx bestVal (curIdx + 1) xs

/-- Index of the first maximal element of a list (np.argmax); 0 on the
empty list. -/
def argmaxIdx : List ℚ → Nat
  | [] => 0
  | x :: xs => argmaxAux 0 x 1 xs

/-- Value at `x` of the straight line through `(x0, y0)` and `(x1, y1)`.
Division by zero (a duplicated abscissa) follows the rational convention
`q / 0 = 0`, so the segment then evaluates to `y0`; the float source
instead produces inf or nan on such a segment.  The duplicated-abscissa
situation is reachable (an income distribution whose post-return
endogenous knots coincide), so theorems that rely on interpolant values
only do so on runs whose knots are distinct, and no theorem in this file
asserts that the embedding and the source agree at a duplicated
abscissa. -/
def segEval (x0 y0 x1 y1 x : ℚ) : ℚ :=
  y0 + (y1 - y0) / (x1 - x0) * (x - x0)

/-- Modelled from the spec (section 4.3): piecewise-linear evaluation of a
sorted coordinate/value pair list, extrapolating linearly beyond either end
using the first, respectively last, segment.  This is the evaluation rule
of HARK.interpolation.LinearInterp when no asymptote bounds are supplied
(that file is repository code not under src/). -/
def piecewiseLinear : List (ℚ × ℚ) → ℚ → ℚ
  | [], _ => 0
  | [(_, y0)], _ => y0
  | [(x0, y0), (x1, y1)], x => segEval x0 y0 x1 y1 x
  | (x0, y0) :: (x1, y1) :: p :: ps, x =>
    if x ≤ x1 then segEval x0 y0 x1 y1 x
    else piecewiseLinear ((x1, y1) :: p :: ps) x

/-- Piecewise-linear interpolation through `x_list`/`y_list`. -/
def linterpEval (x_list y_list : List ℚ) (x : ℚ) : ℚ :=
  piecewiseLinear (x_list.zip y_list) x

/-- Modelled from the spec (section 4.3): evaluation of a piecewise-linear
interpolant that carries asymptote bounds `intercept_limit` and
`slope_limit`.  Above the last gridpoint the value decays from the sampled
boundary value to the linear asymptote; the shape of the decay is an
explicit parameter `decay`, a function that is 1-ish near 0 and vanishes at
infinity, which the theorems constrain by hypothesis. -/
def linterpEvalLim (decay : ℚ → ℚ) (x_list y_list : List ℚ)
    (intercept_limit slope_limit : ℚ) (x : ℚ) : ℚ :=
  let xTop := x_list.getLastD 0
  if x ≤ xTop then linterpEval x_list y_list x
  else
    intercept_limit + slope_limit * x -
      (intercept_limit + slope_limit * xTop - y_list.getLastD 0) *
        decay (x - xTop)

/-- Modelled from the spec (section 4.3): bilinear interpolation over a
rectangular grid, realised by interpolating each row along the second
coordinate and then interpolating the resulting column linearly.  This is
the evaluation contract of HARK.interpolation.BilinearInterp (repository
code not under src/). -/
def bilinearEval (f_values : List (List ℚ)) (x_list y_list : List ℚ)
    (x y : ℚ) : ℚ :=
  linterpEval x_list (f_values.map (fun row => linterpEval y_list row y)) x

/-- Modelled from the spec (sections 2 and 4.2): the CRRA utility
primitives that the source imports from
HARK.ConsumptionSaving.ConsIndShockModel (repository code not under src/).
Fractional powers are not computable over the rationals, so the kit is an
explicit bundle of pure functions; theorems quantify over it and witnesses
instantiate it with the rational log-utility case (CRRA = 1). -/
structure UtilKit where
  u : ℚ → ℚ
  uP : ℚ → ℚ
  uPinv : ℚ → ℚ
  n : ℚ → ℚ
  nP : ℚ → ℚ
  powNegCRRA : ℚ → ℚ
  pow1mCRRA : ℚ → ℚ

/-- The five function slots of the next-period solution that
solveConsPortfolio unpacks (lines 491-495 of the source), taken with their
evaluation semantics. -/
structure NextSol where
  vPfuncAdj : ℚ → ℚ
  dvdmFuncFxd : ℚ → ℚ → ℚ
  dvdsFuncFxd : ℚ → ℚ → ℚ
  vFuncAdj : ℚ → ℚ
  vFuncFxd : ℚ → ℚ → ℚ

/-- One-argument function objects that the source stores in a solution
record: the HARK interpolation classes actually constructed by
ConsPortfolioModel.py, as syntactic values. -/
inductive Fun1 where
  | NullFunc : Fun1
  | IdentityFunction : Fun1
  | ConstantFunction (c : ℚ) : Fun1
  | LinearInterp (x_list y_list : List ℚ) (limits : Option (ℚ × ℚ)) : Fun1
  | CubicInterp (x_list f_list dfdx_list : List ℚ) : Fun1
  | ValueFuncCRRA (vFuncNvrs : Fun1) (CRRA : ℚ) : Fun1
  | MargValueFuncCRRA (cFunc : Fun1) (CRRA : ℚ) : Fun1
  deriving Repr, DecidableEq

/-- Two-argument function objects stored in a solution record. -/
inductive Fun2 where
  | NullFunc : Fun2
  | IdentityFunction (i_dim : Nat) : Fun2
  | ConstantFunction (c : ℚ) : Fun2
  | BilinearInterp (f_values : List (List ℚ)) (x_list y_list : List ℚ) : Fun2
  | LinearInterpOnInterp1D (xInterpolators : List Fun1) (y_values : List ℚ) : Fun2
  | ValueFuncCRRA (vFuncNvrs : Fun2) (CRRA : ℚ) : Fun2
  | MargValueFuncCRRA (cFunc : Fun2) (CRRA : ℚ) : Fun2
  deriving Repr, DecidableEq

/-- Modelled from the spec (section 4.3): cubic Hermite evaluation on one
segment from values and derivatives at the two knots. -/
def hermiteSeg (x0 y0 d0 x1 y1 d1 x : ℚ) : ℚ :=
  let h := x1 - x0
  let t := (x - x0) / h
  y0 * (1 + 2 * t) * (1 - t) ^ 2 + d0 * h * t * (1 - t) ^ 2 +
    y1 * t ^ 2 * (3 - 2 * t) - d1 * h * t ^ 2 * (1 - t)

/-- Modelled from the spec (section 4.3): piecewise-cubic evaluation from
knot/value/derivative triples, sorted by knot; outside the sampled range
the function continues linearly with the boundary derivative. -/
def cubicEval : List (ℚ × ℚ × ℚ) → ℚ → ℚ
  | [], _ => 0
  | [(x0, y0, d0)], x => y0 + d0 * (x - x0)
  | (x0, y0, d0) :: (x1, y1, d1) :: ps, x =>
    if x ≤ x0 then y0 + d0 * (x - x0)
    else if x ≤ x1 then hermiteSeg x0 y0 d0 x1 y1 d1 x
    else cubicEval ((x1, y1, d1) :: ps) x

/-- Evaluation semantics of the one-argument function objects.  The CRRA
wrapper classes evaluate through the utility kit; `decay` is the asymptote
decay shape of bounded linear interpolants.  The NullFunc sentinel is
never legitimately evaluated (spec section 3); its value here is 0. -/
def Fun1.eval (kit : UtilKit) (decay : ℚ → ℚ) : Fun1 → ℚ → ℚ
  | .NullFunc, _ => 0
  | .IdentityFunction, x => x
  | .ConstantFunction c, _ => c
  | .LinearInterp xs ys none, x => linterpEval xs ys x
  | .LinearInterp xs ys (some (il, sl)), x => linterpEvalLim decay xs ys il sl x
  | .CubicInterp xs ys ds, x => cubicEval ((xs.zip ys).zip ds |>.map
      (fun p => (p.1.1, p.1.2, p.2))) x
  | .ValueFuncCRRA g _, x => kit.u (Fun1.eval kit decay g x)
  | .MargValueFuncCRRA g _, x => kit.uP (Fun1.eval kit decay g x)

/-- Evaluation semantics of the two-argument function objects. -/
def Fun2.eval (kit : UtilKit) (decay : ℚ → ℚ) : Fun2 → ℚ → ℚ → ℚ
  | .NullFunc, _, _ => 0
  | .IdentityFunction i_dim, x, y => if i_dim = 0 then x else y
  | .ConstantFunction c, _, _ => c
  | .BilinearInterp vals xs ys, x, y => bilinearEval vals xs ys x y
  | .LinearInterpOnInterp1D fs ys, x, y =>
      linterpEval ys (fs.map (fun f => Fun1.eval kit decay f x)) y
  | .ValueFuncCRRA g _, x, y => kit.u (Fun2.eval kit decay g x y)
  | .MargValueFuncCRRA g _, x, y => kit.uP (Fun2.eval kit decay g x y)

/-- The single-period solution record (class PortfolioSolution, lines
35-145 of the source): nine function slots plus diagnostic grids. -/
structure PortfolioSolution where
  cFuncAdj : Fun1
  ShareFuncAdj : Fun1
  vFuncAdj : Fun1
  vPfuncAdj : Fun1
  cFuncFxd : Fun2
  ShareFuncFxd : Fun2
  vFuncFxd : Fun2
  dvdmFuncFxd : Fun2
  dvdsFuncFxd : Fun2
  aGrid : Option (List ℚ)
  Share_adj : Option (List ℚ)
  EndOfPrddvda_adj : Option (List ℚ)
  ShareGrid : Option (List ℚ)
  EndOfPrddvda_fxd : Option (List (List ℚ))
  AdjPrb : Option ℚ
  deriving Repr, DecidableEq

/-- Replace a missing one-argument function input by the NullFunc sentinel
(PortfolioSolution.__init__, lines 110-128). -/
def orNull1 : Option Fun1 → Fun1
  | none => Fun1.NullFunc
  | some f => f

/-- Replace a missing two-argument function input by the NullFunc sentinel
(PortfolioSolution.__init__, lines 110-128). -/
def orNull2 : Option Fun2 → Fun2
  | none => Fun2.NullFunc
  | some f => f

/-- PortfolioSolution.__init__ (lines 91-145): every omitted or None
function argument becomes the NullFunc sentinel; the diagnostic grids are
stored as given. -/
def PortfolioSolution.init
    (cFuncAdj ShareFuncAdj vFuncAdj vPfuncAdj : Option Fun1)
    (cFuncFxd ShareFuncFxd vFuncFxd dvdmFuncFxd dvdsFuncFxd : Option Fun2)
    (aGrid Share_adj EndOfPrddvda_adj ShareGrid : Option (List ℚ))
    (EndOfPrddvda_fxd : Option (List (List ℚ)))
    (AdjPrb : Option ℚ) : PortfolioSolution :=
  ⟨orNull1 cFuncAdj, orNull1 ShareFuncAdj, orNull1 vFuncAdj, orNull1 vPfuncAdj,
   orNull2 cFuncFxd, orNull2 ShareFuncFxd, orNull2 vFuncFxd,
   orNull2 dvdmFuncFxd, orNull2 dvdsFuncFxd,
   aGrid, Share_adj, EndOfPrddvda_adj, ShareGrid, EndOfPrddvda_fxd, AdjPrb⟩

/-- update_solution_terminal (lines 187-231): consume everything, zero
risky share; value and marginal-value slots wrap the trivial policies in
the CRRA classes. -/
def update_solution_terminal (CRRA : ℚ) : PortfolioSolution :=
  PortfolioSolution.init
    (some Fun1.IdentityFunction)
    (some (Fun1.ConstantFunction 0))
    (some (Fun1.ValueFuncCRRA Fun1.IdentityFunction CRRA))
    (some (Fun1.MargValueFuncCRRA Fun1.IdentityFunction CRRA))
    (some (Fun2.IdentityFunction 0))
    (some (Fun2.IdentityFunction 1))
    (some (Fun2.ValueFuncCRRA (Fun2.IdentityFunction 0) CRRA))
    (some (Fun2.MargValueFuncCRRA (Fun2.IdentityFunction 0) CRRA))
    (some (Fun2.ConstantFunction 0))
    none none none none none none

/-- The joint shock distribution passed as ShockDstn: four aligned lists
of discrete probabilities, permanent shocks, transitory shocks and risky
returns (source docstring, lines 415-419). -/
structure JointDstn where
  ShockPrbs : List ℚ
  PermShks : List ℚ
  TranShks : List ℚ
  Risky : List ℚ

/-- The independent income-shock distribution IncShkDstn: probabilities
and the two component value lists, permanent (X[0]) and transitory
(X[1]). -/
structure IncDstn where
  pmf : List ℚ
  PermShk : List ℚ
  TranShk : List ℚ

/-- The independent risky-return distribution RiskyDstn: probabilities
and return values. -/
structure RiskyD where
  pmf : List ℚ
  X : List ℚ

/-- Modelled from the spec (section 4.1): the probability-weighted sum of
a function of the shock scenario, the expectation operator
HARK.distribution.calc_expectation (repository code not under src/)
specialised to a scalar-valued integrand at one point of the non-shock
arrays. -/
def calcExpectation (pmf : List ℚ) (vals : List α) (f : α → ℚ) : ℚ :=
  ((pmf.zip vals).map (fun pv => pv.1 * f pv.2)).sum

/-- Future market resources in the independent path, m_nrm_next (lines
528-529): shocks are a (permanent, transitory) pair. -/
def m_nrm_next (PermGroFac : ℚ) (shocks : ℚ × ℚ) (b_nrm : ℚ) : ℚ :=
  b_nrm / (shocks.1 * PermGroFac) + shocks.2

/-- Realised marginal value of market resources next period, dvdb_dist
(lines 532-543): blends the Adj and Fxd branches by the adjustment
probability, skipping the Fxd evaluation entirely when AdjustPrb is not
below 1. -/
def dvdb_dist (kit : UtilKit) (next : NextSol) (PermGroFac AdjustPrb : ℚ)
    (shocks : ℚ × ℚ) (b_nrm Share_next : ℚ) : ℚ :=
  let mNrm_next := m_nrm_next PermGroFac shocks b_nrm
  let dvdmAdj_next := next.vPfuncAdj mNrm_next
  let dvdm_next :=
    if AdjustPrb < 1 then
      AdjustPrb * dvdmAdj_next +
        (1 - AdjustPrb) * next.dvdmFuncFxd mNrm_next Share_next
    else dvdmAdj_next
  kit.powNegCRRA (shocks.1 * PermGroFac) * dvdm_next

/-- Realised marginal value of the risky share next period, dvds_dist
(lines 546-557): the Adj branch contributes zero because the share is a
free choice there. -/
def dvds_dist (kit : UtilKit) (next : NextSol) (PermGroFac AdjustPrb : ℚ)
    (shocks : ℚ × ℚ) (b_nrm Share_next : ℚ) : ℚ :=
  let mNrm_next := m_nrm_next PermGroFac shocks b_nrm
  let dvdsAdj_next : ℚ := 0
  let dvds_next :=
    if AdjustPrb < 1 then
      AdjustPrb * dvdsAdj_next +
        (1 - AdjustPrb) * next.dvdsFuncFxd mNrm_next Share_next
    else dvdsAdj_next
  kit.pow1mCRRA (shocks.1 * PermGroFac) * dvds_next

/-- Realised value next period, v_intermed_dist (lines 560-571). -/
def v_intermed_dist (kit : UtilKit) (next : NextSol) (PermGroFac AdjustPrb : ℚ)
    (shocks : ℚ × ℚ) (b_nrm Share_next : ℚ) : ℚ :=
  let mNrm_next := m_nrm_next PermGroFac shocks b_nrm
  let vAdj_next := next.vFuncAdj mNrm_next
  let v_next :=
    if AdjustPrb < 1 then
      AdjustPrb * vAdj_next + (1 - AdjustPrb) * next.vFuncFxd mNrm_next Share_next
    else vAdj_next
  kit.pow1mCRRA (shocks.1 * PermGroFac) * v_next

/-- Pointwise dvdm blend of the joint path (lines 710-716). -/
def dvdm_next_joint (next : NextSol) (AdjustPrb mNrm_next Share_next : ℚ) : ℚ :=
  let dvdmAdj_next := next.vPfuncAdj mNrm_next
  if AdjustPrb < 1 then
    AdjustPrb * dvdmAdj_next +
      (1 - AdjustPrb) * next.dvdmFuncFxd mNrm_next Share_next
  else dvdmAdj_next

/-- Pointwise dvds blend of the joint path (lines 719-726): the Adj
branch is identically zero. -/
def dvds_next_joint (next : NextSol) (AdjustPrb mNrm_next Share_next : ℚ) : ℚ :=
  let dvdsAdj_next : ℚ := 0
  if AdjustPrb < 1 then
    AdjustPrb * dvdsAdj_next +
      (1 - AdjustPrb) * next.dvdsFuncFxd mNrm_next Share_next
  else dvdsAdj_next

/-- Pointwise value blend of the joint path (lines 729-735), used when
the value function is requested. -/
def v_next_joint (next : NextSol) (AdjustPrb mNrm_next Share_next : ℚ) : ℚ :=
  let vAdj_next := next.vFuncAdj mNrm_next
  if AdjustPrb < 1 then
    AdjustPrb * vAdj_next + (1 - AdjustPrb) * next.vFuncFxd mNrm_next Share_next
  else vAdj_next

/-- Modelled from the spec (step 2 of section 4.2): the reference
probability-weighted mixture of the Adj and Fxd regimes, AdjustPrb times
the Adj value plus (1 - AdjustPrb) times the Fxd value. -/
def specMixture (AdjustPrb adjVal fxdVal : ℚ) : ℚ :=
  AdjustPrb * adjVal + (1 - AdjustPrb) * fxdVal

/-- Flag for whether the natural borrowing constraint is zero (lines 504
and 672): the minimum transitory shock equals zero. -/
def zero_bound_of (TranShks_next : List ℚ) : Bool :=
  listMin TranShks_next == 0

/-- End-of-period asset grid of the independent path (lines 509-517): the
externally supplied grid, prefixed with an exact zero when the natural
borrowing constraint is not already zero. -/
def aNrmGrid_indep (zero_bound : Bool) (aXtraGrid : List ℚ) : List ℚ :=
  if zero_bound then aXtraGrid else 0 :: aXtraGrid

/-- End-of-period asset grid of the joint path (lines 675-679), the same
construction as on the independent path. -/
def aNrmGrid_joint (zero_bound : Bool) (aXtraGrid : List ℚ) : List ℚ :=
  if zero_bound then aXtraGrid else 0 :: aXtraGrid

/-- Bank-balance grid of the independent path (lines 509-517). -/
def bNrmGrid_indep (zero_bound : Bool) (aXtraGrid Risky_next : List ℚ) : List ℚ :=
  let RiskyMax := listMax Risky_next
  if zero_bound then
    listMin Risky_next * aXtraGrid.headD 0 :: aXtraGrid.map (fun a => RiskyMax * a)
  else (0 :: aXtraGrid).map (fun a => RiskyMax * a)

/-- What one expectation fork hands to the common tail of the solver: the
asset grid, the zero-bound flag, and the end-of-period arrays tabulated
over (asset gridpoint, share gridpoint). -/
structure PathResult where
  zero_bound : Bool
  aNrmGrid : List ℚ
  EndOfPrddvda : List (List ℚ)
  EndOfPrddvdaNvrs : List (List ℚ)
  EndOfPrdv : List (List ℚ)
  EndOfPrdvNvrs : List (List ℚ)
  EndOfPrddvds : List (List ℚ)

/-- Independent-distributions branch of solveConsPortfolio (lines
498-663): intermediate functions of (bank balances, share) by expectation
over income shocks, then end-of-period arrays by expectation over the
risky return, tabulated over the asset and share grids. -/
def indepPath (kit : UtilKit) (next : NextSol)
    (IncShkDstn : IncDstn) (RiskyDstn : RiskyD)
    (LivPrb DiscFac Rfree PermGroFac : ℚ)
    (aXtraGrid ShareGrid : List ℚ) (vFuncBool : Bool) (AdjustPrb : ℚ) :
    PathResult :=
  let TranShks_next := IncShkDstn.TranShk
  let Risky_next := RiskyDstn.X
  let zero_bound := zero_bound_of TranShks_next
  let aNrmGrid := aNrmGrid_indep zero_bound aXtraGrid
  let bNrmGrid := bNrmGrid_indep zero_bound aXtraGrid Risky_next
  let incShocks := IncShkDstn.PermShk.zip IncShkDstn.TranShk
  let dvdb_intermed := bNrmGrid.map (fun b => ShareGrid.map (fun s =>
    calcExpectation IncShkDstn.pmf incShocks (fun sh =>
      dvdb_dist kit next PermGroFac AdjustPrb sh b s)))
  let dvdbNvrs_intermed := dvdb_intermed.map (fun row => row.map kit.uPinv)
  let v_intermed :=
    if vFuncBool then
      bNrmGrid.map (fun b => ShareGrid.map (fun s =>
        calcExpectation IncShkDstn.pmf incShocks (fun sh =>
          v_intermed_dist kit next PermGroFac AdjustPrb sh b s)))
    else []
  let vNvrs_intermed := v_intermed.map (fun row => row.map kit.n)
  let dvds_intermed := bNrmGrid.map (fun b => ShareGrid.map (fun s =>
    calcExpectation IncShkDstn.pmf incShocks (fun sh =>
      dvds_dist kit next PermGroFac AdjustPrb sh b s)))
  let dvdbFunc_intermed := fun b s =>
    kit.uP (bilinearEval dvdbNvrs_intermed bNrmGrid ShareGrid b s)
  let vFunc_intermed := fun b s =>
    kit.u (bilinearEval vNvrs_intermed bNrmGrid ShareGrid b s)
  let dvdsFunc_intermed := fun b s =>
    bilinearEval dvds_intermed bNrmGrid ShareGrid b s
  let EndOfPrddvda := aNrmGrid.map (fun a => ShareGrid.map (fun s =>
    DiscFac * LivPrb * calcExpectation RiskyDstn.pmf RiskyDstn.X (fun shock =>
      let Rxs := shock - Rfree
      let Rport := Rfree + s * Rxs
      Rport * dvdbFunc_intermed (Rport * a) s)))
  let EndOfPrddvdaNvrs := EndOfPrddvda.map (fun row => row.map kit.uPinv)
  let EndOfPrdv :=
    if vFuncBool then
      aNrmGrid.map (fun a => ShareGrid.map (fun s =>
        DiscFac * LivPrb * calcExpectation RiskyDstn.pmf RiskyDstn.X (fun shock =>
          let Rxs := shock - Rfree
          let Rport := Rfree + s * Rxs
          vFunc_intermed (Rport * a) s)))
    else []
  let EndOfPrdvNvrs := EndOfPrdv.map (fun row => row.map kit.n)
  let EndOfPrddvds := aNrmGrid.map (fun a => ShareGrid.map (fun s =>
    DiscFac * LivPrb * calcExpectation RiskyDstn.pmf RiskyDstn.X (fun shock =>
      let Rxs := shock - Rfree
      let Rport := Rfree + s * Rxs
      Rxs * a * dvdbFunc_intermed (Rport * a) s +
        dvdsFunc_intermed (Rport * a) s)))
  ⟨zero_bound, aNrmGrid, EndOfPrddvda, EndOfPrddvdaNvrs,
   EndOfPrdv, EndOfPrdvNvrs, EndOfPrddvds⟩

/-- One scenario tuple of the joint distribution: probability, permanent
shock, transitory shock, risky return. -/
def jointScenarios (d : JointDstn) : List (ℚ × ℚ × ℚ × ℚ) :=
  d.ShockPrbs.zip (d.PermShks.zip (d.TranShks.zip d.Risky))

/-- End-of-period marginal value of assets on the joint path (lines
740-745), tabulated over (asset gridpoint, share gridpoint). -/
def EndOfPrddvda_joint (kit : UtilKit) (next : NextSol) (d : JointDstn)
    (LivPrb DiscFac Rfree PermGroFac AdjustPrb : ℚ)
    (aNrmGrid ShareGrid : List ℚ) : List (List ℚ) :=
  aNrmGrid.map (fun a => ShareGrid.map (fun s =>
    DiscFac * LivPrb *
      ((jointScenarios d).map (fun sc =>
        let Rport := (1 - s) * Rfree + s * sc.2.2.2
        let mNrm_next := Rport * a / (sc.2.1 * PermGroFac) + sc.2.2.1
        let temp_fac_A := kit.uP (sc.2.1 * PermGroFac)
        sc.1 * Rport * temp_fac_A *
          dvdm_next_joint next AdjustPrb mNrm_next s)).sum))

/-- End-of-period value on the joint path (lines 750-755). -/
def EndOfPrdv_joint (kit : UtilKit) (next : NextSol) (d : JointDstn)
    (LivPrb DiscFac Rfree PermGroFac AdjustPrb : ℚ)
    (aNrmGrid ShareGrid : List ℚ) : List (List ℚ) :=
  aNrmGrid.map (fun a => ShareGrid.map (fun s =>
    DiscFac * LivPrb *
      ((jointScenarios d).map (fun sc =>
        let Rport := (1 - s) * Rfree + s * sc.2.2.2
        let mNrm_next := Rport * a / (sc.2.1 * PermGroFac) + sc.2.2.1
        let temp_fac_B := kit.pow1mCRRA (sc.2.1 * PermGroFac)
        sc.1 * temp_fac_B * v_next_joint next AdjustPrb mNrm_next s)).sum))

/-- End-of-period marginal value of the risky share on the joint path
(lines 758-767). -/
def EndOfPrddvds_joint (kit : UtilKit) (next : NextSol) (d : JointDstn)
    (LivPrb DiscFac Rfree PermGroFac AdjustPrb : ℚ)
    (aNrmGrid ShareGrid : List ℚ) : List (List ℚ) :=
  aNrmGrid.map (fun a => ShareGrid.map (fun s =>
    DiscFac * LivPrb *
      ((jointScenarios d).map (fun sc =>
        let Rport := (1 - s) * Rfree + s * sc.2.2.2
        let mNrm_next := Rport * a / (sc.2.1 * PermGroFac) + sc.2.2.1
        let temp_fac_A := kit.uP (sc.2.1 * PermGroFac)
        let temp_fac_B := kit.pow1mCRRA (sc.2.1 * PermGroFac)
        let Rxs := sc.2.2.2 - Rfree
        sc.1 * (Rxs * a * temp_fac_A *
            dvdm_next_joint next AdjustPrb mNrm_next s +
          temp_fac_B * dvds_next_joint next AdjustPrb mNrm_next s))).sum))

/-- Joint-distribution branch of solveConsPortfolio (lines 665-767):
direct probability-weighted sums over the joint scenarios, tabulated over
the asset and share grids. -/
def jointPath (kit : UtilKit) (next : NextSol) (ShockDstn : JointDstn)
    (LivPrb DiscFac Rfree PermGroFac : ℚ)
    (aXtraGrid ShareGrid : List ℚ) (vFuncBool : Bool) (AdjustPrb : ℚ) :
    PathResult :=
  let zero_bound := zero_bound_of ShockDstn.TranShks
  let aNrmGrid := aNrmGrid_joint zero_bound aXtraGrid
  let EndOfPrddvda := EndOfPrddvda_joint kit next ShockDstn LivPrb DiscFac
    Rfree PermGroFac AdjustPrb aNrmGrid ShareGrid
  let EndOfPrddvdaNvrs := EndOfPrddvda.map (fun row => row.map kit.uPinv)
  let EndOfPrdv :=
    if vFuncBool then
      EndOfPrdv_joint kit next ShockDstn LivPrb DiscFac Rfree PermGroFac
        AdjustPrb aNrmGrid ShareGrid
    else []
  let EndOfPrdvNvrs := EndOfPrdv.map (fun row => row.map kit.n)
  let EndOfPrddvds := EndOfPrddvds_joint kit next ShockDstn LivPrb DiscFac
    Rfree PermGroFac AdjustPrb aNrmGrid ShareGrid
  ⟨zero_bound, aNrmGrid, EndOfPrddvda, EndOfPrddvdaNvrs,
   EndOfPrdv, EndOfPrdvNvrs, EndOfPrddvds⟩

/-- Errors a solve call can raise: the two configuration checks at the
top of solveConsPortfolio (lines 471-481), and the IndexError that
np.argwhere indexing would raise if the crossing search found no sign
change (line 806). -/
inductive SolveErr where
  | config (msg : String) : SolveErr
  | index : SolveErr
  | nan : SolveErr
  deriving Repr, DecidableEq

/-- First index i with FOC[i] ≥ 0 and FOC[i+1] ≤ 0, mirroring
crossing = np.logical_and(FOC_s[:, 1:] <= 0.0, FOC_s[:, :-1] >= 0.0) and
np.argwhere(crossing[j, :])[0][0] (lines 803-806); none when the Python
indexing would raise. -/
def crossingIdx : List ℚ → Option Nat
  | x :: y :: rest =>
    if 0 ≤ x ∧ y ≤ 0 then some 0
    else (crossingIdx (y :: rest)).map (fun i => i + 1)
  | _ => none

/-- Sequence a list of optional results, none as soon as one entry is
none: the effect of running the per-gridpoint loop of lines 804-815 to
completion, or aborting at the first IndexError. -/
def mapMOpt (f : α → Option β) : List α → Option (List β)
  | [] => some []
  | a :: l =>
    match f a, mapMOpt f l with
    | some b, some bs => some (b :: bs)
    | _, _ => none

/-- The continuous-share optimum at one asset gridpoint j (lines
780-815): the share and consumption chosen there.  Returns none exactly
when the unconstrained crossing search would raise an IndexError.  The
branch order mirrors the mask assignments of the source: the top
constraint (or the forced zero-asset case when no natural zero bound
holds) sets the share to 1, the bottom constraint leaves it at 0, and the
consumption assignment for the bottom constraint (line 800) runs after
the one for the top constraint (line 799), so it wins when both hold.
When the crossing bracket is the degenerate exact pair (0, 0) the source
computes alpha = 1.0 - 0.0/0.0, a float nan; the rational convention
0 / 0 = 0 used here would instead report alpha = 1.  The solver therefore
screens every row with rowNanDegenerate before this fallback value can
reach a returned record, surfacing such runs as the SolveErr.nan outcome,
so the rational fallback is never quoted as the behaviour of the
source. -/
def contShareRow (zero_bound : Bool) (j : Nat)
    (ShareGrid FOC_row Nvrs_row : List ℚ) : Option (ℚ × ℚ) :=
  let constrained_top := FOC_row.getLastD 0 > 0 ∨ (zero_bound = false ∧ j = 0)
  let constrained_bot := FOC_row.headD 0 < 0
  if constrained_top then
    if constrained_bot then some (1, Nvrs_row.headD 0)
    else some (1, Nvrs_row.getLastD 0)
  else if constrained_bot then some (0, Nvrs_row.headD 0)
  else
    match crossingIdx FOC_row with
    | none => none
    | some idx =>
      let bot_s := ShareGrid.getD idx 0
      let top_s := ShareGrid.getD (idx + 1) 0
      let bot_f := FOC_row.getD idx 0
      let top_f := FOC_row.getD (idx + 1) 0
      let bot_c := Nvrs_row.getD idx 0
      let top_c := Nvrs_row.getD (idx + 1) 0
      let alpha := 1 - top_f / (top_f - bot_f)
      some ((1 - alpha) * bot_s + alpha * top_s,
            (1 - alpha) * bot_c + alpha * top_c)

/-- The discrete-share optimum (lines 770-778): for each asset gridpoint
choose the share-grid index with the highest end-of-period value, take
consumption at that index, and force share 1 with share-independent
consumption at the zero-asset point when it exists. -/
def discreteShares (zero_bound : Bool) (ShareGrid : List ℚ)
    (EndOfPrdv EndOfPrddvdaNvrs : List (List ℚ)) : List ℚ × List ℚ :=
  let opt_idx := EndOfPrdv.map argmaxIdx
  let Share_now := opt_idx.map (fun i => ShareGrid.getD i 0)
  let cNrmAdj_now := (EndOfPrddvdaNvrs.zip opt_idx).map (fun p => p.1.getD p.2 0)
  if zero_bound then (Share_now, cNrmAdj_now)
  else (Share_now.set 0 1,
        cNrmAdj_now.set 0 ((EndOfPrddvdaNvrs.headD []).getLastD 0))

/-- Common tail of solveConsPortfolio (lines 817-947): the endogenous
gridpoints, the interpolated policy and value objects, and the returned
PortfolioSolution record. -/
def assembleSolution (kit : UtilKit) (decay : ℚ → ℚ) (pr : PathResult)
    (ShareGrid : List ℚ) (CRRA : ℚ) (vFuncBool : Bool) (AdjustPrb : ℚ)
    (DiscreteShareBool : Bool) (ShareLimit : ℚ) (aXtraGrid : List ℚ)
    (Share_now cNrmAdj_now : List ℚ) : PortfolioSolution :=
  let aNrmGrid := pr.aNrmGrid
  let mNrmAdj_now := List.zipWith (fun a c => a + c) aNrmGrid cNrmAdj_now
  let ShareFuncAdj_now :=
    if DiscreteShareBool then
      let mNrmAdj_mid := List.zipWith (fun x y => (x + y) / 2)
        mNrmAdj_now.tail mNrmAdj_now
      let mNrmAdj_plus := mNrmAdj_mid.map (fun x => x * (1 + 1 / 1000000000000))
      let interleaved := (mNrmAdj_mid.zip mNrmAdj_plus).flatMap
        (fun p => [p.1, p.2])
      let mNrmAdj_comb := 0 :: interleaved ++ [mNrmAdj_now.getLastD 0]
      let Share_comb := Share_now.flatMap (fun s => [s, s])
      Fun1.LinearInterp mNrmAdj_comb Share_comb none
    else
      let Share_lower_bound := if pr.zero_bound then ShareLimit else 1
      Fun1.LinearInterp (0 :: mNrmAdj_now) (Share_lower_bound :: Share_now)
        (some (ShareLimit, 0))
  let cFuncAdj_now := Fun1.LinearInterp (0 :: mNrmAdj_now) (0 :: cNrmAdj_now) none
  let vPfuncAdj_now := Fun1.MargValueFuncCRRA cFuncAdj_now CRRA
  let cols := List.range ShareGrid.length
  let cFuncFxd_by_Share := cols.map (fun j =>
    let cNrmFxd_temp := pr.EndOfPrddvdaNvrs.map (fun row => row.getD j 0)
    let mNrmFxd_temp := List.zipWith (fun a c => a + c) aNrmGrid cNrmFxd_temp
    Fun1.LinearInterp (0 :: mNrmFxd_temp) (0 :: cNrmFxd_temp) none)
  let dvdsFuncFxd_by_Share := cols.map (fun j =>
    let cNrmFxd_temp := pr.EndOfPrddvdaNvrs.map (fun row => row.getD j 0)
    let mNrmFxd_temp := List.zipWith (fun a c => a + c) aNrmGrid cNrmFxd_temp
    let dvdsCol := pr.EndOfPrddvds.map (fun row => row.getD j 0)
    Fun1.LinearInterp (0 :: mNrmFxd_temp) (dvdsCol.headD 0 :: dvdsCol) none)
  let cFuncFxd_now := Fun2.LinearInterpOnInterp1D cFuncFxd_by_Share ShareGrid
  let dvdsFuncFxd_now := Fun2.LinearInterpOnInterp1D dvdsFuncFxd_by_Share ShareGrid
  let ShareFuncFxd_now := Fun2.IdentityFunction 1
  let dvdmFuncFxd_now := Fun2.MargValueFuncCRRA cFuncFxd_now CRRA
  let vFuncPair :=
    if vFuncBool then
      let EndOfPrdvFunc := fun a s =>
        kit.u (bilinearEval pr.EndOfPrdvNvrs aNrmGrid ShareGrid a s)
      let mNrm_temp := aXtraGrid
      let cNrm_temp := mNrm_temp.map (Fun1.eval kit decay cFuncAdj_now)
      let aNrm_temp := List.zipWith (fun m c => m - c) mNrm_temp cNrm_temp
      let Share_temp := mNrm_temp.map (Fun1.eval kit decay ShareFuncAdj_now)
      let v_temp := List.zipWith (fun c p => kit.u c + EndOfPrdvFunc p.1 p.2)
        cNrm_temp (aNrm_temp.zip Share_temp)
      let vNvrs_temp := v_temp.map kit.n
      let vNvrsP_temp := List.zipWith (fun c v => kit.uP c * kit.nP v)
        cNrm_temp v_temp
      let vNvrsFuncAdj := Fun1.CubicInterp (0 :: mNrm_temp) (0 :: vNvrs_temp)
        (vNvrsP_temp.headD 0 :: vNvrsP_temp)
      let vFuncAdj_now := Fun1.ValueFuncCRRA vNvrsFuncAdj CRRA
      let cMat := aXtraGrid.map (fun m => ShareGrid.map (fun s =>
        Fun2.eval kit decay cFuncFxd_now m s))
      let vMat := List.zipWith (fun m crow => List.zipWith (fun s c =>
        kit.u c + EndOfPrdvFunc (m - c) s) ShareGrid crow) aXtraGrid cMat
      let vNvrsMat := vMat.map (fun row => row.map kit.n)
      let vNvrsPMat := List.zipWith (fun crow vrow => List.zipWith
        (fun c v => kit.uP c * kit.nP v) crow vrow) cMat vMat
      let vNvrsFuncFxd_by_Share := cols.map (fun j =>
        Fun1.CubicInterp (0 :: aXtraGrid)
          (0 :: vNvrsMat.map (fun row => row.getD j 0))
          ((vNvrsPMat.getD j []).getD 0 0 ::
            vNvrsPMat.map (fun row => row.getD j 0)))
      let vNvrsFuncFxd := Fun2.LinearInterpOnInterp1D vNvrsFuncFxd_by_Share ShareGrid
      (some vFuncAdj_now, some (Fun2.ValueFuncCRRA vNvrsFuncFxd CRRA))
    else (none, none)
  PortfolioSolution.init
    (some cFuncAdj_now) (some ShareFuncAdj_now) vFuncPair.1 (some vPfuncAdj_now)
    (some cFuncFxd_now) (some ShareFuncFxd_now) vFuncPair.2
    (some dvdmFuncFxd_now) (some dvdsFuncFxd_now)
    (some aNrmGrid) (some Share_now) (some (cNrmAdj_now.map kit.uP))
    (some ShareGrid) (some (pr.EndOfPrddvda.map (fun row => row.map kit.uP)))
    (some AdjustPrb)

/-- Detects the degenerate bracket of the regula-falsi step: the row
reaches the crossing interpolation of line 813 (neither top- nor
bottom-constrained, nor the forced zero-asset point) with a bracket whose
denominator top_f - bot_f is exactly zero, which in the source makes
alpha = 1.0 - 0.0/0.0 a float nan, so the tabulated share and consumption
at that gridpoint are nan. -/
def rowNanDegenerate (zero_bound : Bool) (j : Nat) (FOC_row : List ℚ) : Bool :=
  if FOC_row.getLastD 0 > 0 ∨ (zero_bound = false ∧ j = 0) then false
  else if FOC_row.headD 0 < 0 then false
  else
    match crossingIdx FOC_row with
    | none => false
    | some idx => FOC_row.getD (idx + 1) 0 - FOC_row.getD idx 0 == 0

/-- The discrete-versus-continuous share fork of solveConsPortfolio
(lines 769-815) followed by the common tail.  A continuous-share row
whose crossing search fails surfaces as the IndexError outcome, exactly
as in the source; a row whose crossing bracket is the degenerate exact
pair (0, 0) makes the source tabulate float nan for that share and
consumption (alpha = 1.0 - 0.0/0.0 at line 813) and return a
nan-poisoned record, an outcome the rational embedding cannot hold in a
numeric record and therefore surfaces as the explicit SolveErr.nan
marker instead of numbers.  No theorem about an Except.ok record covers
that poisoned path. -/
def shareFork (kit : UtilKit) (decay : ℚ → ℚ) (pr : PathResult)
    (ShareGrid : List ℚ) (CRRA : ℚ) (vFuncBool : Bool) (AdjustPrb : ℚ)
    (DiscreteShareBool : Bool) (ShareLimit : ℚ) (aXtraGrid : List ℚ) :
    Except SolveErr PortfolioSolution :=
  if DiscreteShareBool then
    let sc := discreteShares pr.zero_bound ShareGrid pr.EndOfPrdv
      pr.EndOfPrddvdaNvrs
    Except.ok (assembleSolution kit decay pr ShareGrid CRRA vFuncBool AdjustPrb
      true ShareLimit aXtraGrid sc.1 sc.2)
  else
    match mapMOpt (fun j =>
        contShareRow pr.zero_bound j ShareGrid (pr.EndOfPrddvds.getD j [])
          (pr.EndOfPrddvdaNvrs.getD j [])) (List.range pr.aNrmGrid.length) with
    | none => Except.error SolveErr.index
    | some rows =>
      if (List.range pr.aNrmGrid.length).any (fun j =>
          rowNanDegenerate pr.zero_bound j (pr.EndOfPrddvds.getD j [])) then
        Except.error SolveErr.nan
      else
        Except.ok (assembleSolution kit decay pr ShareGrid CRRA vFuncBool
          AdjustPrb false ShareLimit aXtraGrid (rows.map Prod.fst)
          (rows.map Prod.snd))

/-- The one-period portfolio-choice solver, solveConsPortfolio (lines
389-947): configuration checks, the (in)dependent-distributions fork, the
share-optimization fork, and the assembled solution record. -/
def solveConsPortfolio (kit : UtilKit) (decay : ℚ → ℚ)
    (solution_next : NextSol) (ShockDstn : JointDstn) (IncShkDstn : IncDstn)
    (RiskyDstn : RiskyD) (LivPrb DiscFac CRRA Rfree PermGroFac BoroCnstArt : ℚ)
    (aXtraGrid ShareGrid : List ℚ) (vFuncBool : Bool) (AdjustPrb : ℚ)
    (DiscreteShareBool : Bool) (ShareLimit : ℚ) (IndepDstnBool : Bool) :
    Except SolveErr PortfolioSolution :=
  if BoroCnstArt ≠ 0 then
    Except.error (SolveErr.config
      ("PortfolioConsumerType must have BoroCnstArt=0.0!"))
  else if DiscreteShareBool = true ∧ vFuncBool = false then
    Except.error (SolveErr.config
      ("PortfolioConsumerType requires vFuncBool to be True when DiscreteShareBool is True!"))
  else
    let pr :=
      if IndepDstnBool then
        indepPath kit solution_next IncShkDstn RiskyDstn LivPrb DiscFac Rfree
          PermGroFac aXtraGrid ShareGrid vFuncBool AdjustPrb
      else
        jointPath kit solution_next ShockDstn LivPrb DiscFac Rfree PermGroFac
          aXtraGrid ShareGrid vFuncBool AdjustPrb
    shareFork kit decay pr ShareGrid CRRA vFuncBool AdjustPrb DiscreteShareBool
      ShareLimit aXtraGrid

/-- The returned record of a successful solve, none on error. -/
def solutionOf : Except SolveErr PortfolioSolution → Option PortfolioSolution
  | Except.ok s => some s
  | Except.error _ => none

/-- True when the solve call returned a configuration error. -/
def isConfigError : Except SolveErr PortfolioSolution → Bool
  | Except.error (SolveErr.config _) => true
  | _ => false

/-- The rational instance of the utility kit: log utility, CRRA = 1, for
which marginal utility and its inverse are x to the power minus one, the
power minus CRRA is the reciprocal and the power 1 - CRRA is constant
one.  The plain and inverse utility slots are only consumed when a value
function is requested, which the concrete runs below never do. -/
def kit1 : UtilKit :=
  ⟨fun x => x, fun x => 1 / x, fun x => 1 / x, fun x => x, fun x => x,
   fun x => 1 / x, fun _ => 1⟩

/-- A decay shape that is identically zero: trivially vanishing at
infinity and within the unit interval. -/
def decay0 : ℚ → ℚ := fun _ => 0

/-- A trivial next-period solution: unit marginal values, zero marginal
value of the share, zero values. -/
def nextT : NextSol :=
  ⟨fun _ => 1, fun _ _ => 1, fun _ _ => 0, fun _ => 0, fun _ _ => 0⟩

/-- A next-period solution whose adjustable marginal value function is a
non-monotone step, a record shape any PortfolioSolution with a
piecewise-linear pseudo-inverse marginal value can realise. -/
def nextC8 : NextSol :=
  ⟨fun m => if m ≤ 1 then 1 / 2 else if m ≤ 3 then 1 / 4 else 1 / 3,
   fun _ _ => 1, fun _ _ => 0, fun _ => 0, fun _ _ => 0⟩

/-- A next-period solution whose fixed-share marginal value of the share
is strictly negative everywhere. -/
def nextC4 : NextSol :=
  ⟨fun _ => 1, fun _ _ => 1, fun _ _ => -1, fun _ => 0, fun _ _ => 0⟩

/-- Degenerate joint distribution: one scenario with permanent shock 1,
transitory shock 1 and risky return 2. -/
def jointD1 : JointDstn := ⟨[1], [1], [1], [2]⟩

/-- Degenerate independent income distribution: one scenario with
permanent shock 1 and transitory shock 0. -/
def incD1 : IncDstn := ⟨[1], [1], [0]⟩

/-- Degenerate independent income distribution with transitory shock 1,
so the natural borrowing constraint is away from zero. -/
def incD2 : IncDstn := ⟨[1], [1], [1]⟩

/-- Degenerate risky-return distribution: sure return 2. -/
def riskyD1 : RiskyD := ⟨[1], [2]⟩

/-- Two-atom risky-return distribution with distinct returns 1 and 3,
each with probability one half, so the bank-balance grid built from it
has strictly increasing knots and no interpolation denominator
vanishes. -/
def riskyD2 : RiskyD := ⟨[1 / 2, 1 / 2], [1, 3]⟩

/-- Concrete solve call for the non-monotone consumption counterexample:
joint path, full adjustment, log utility, sure return 2 against risk-free
return 1, asset grid [1, 2]. -/
def solveC8 : Except SolveErr PortfolioSolution :=
  solveConsPortfolio kit1 decay0 nextC8 jointD1 incD1 riskyD1
    1 1 1 1 1 0 [1, 2] [0, 1] false 1 false (1 / 2) false

/-- Concrete solve call for the zero-asset share-forcing counterexample:
joint path, adjustment probability one half, negative marginal value of
the share next period, asset grid [1]. -/
def solveC4 : Except SolveErr PortfolioSolution :=
  solveConsPortfolio kit1 decay0 nextC4 jointD1 incD1 riskyD1
    1 1 1 1 1 0 [1] [0, 1] false (1 / 2) false (1 / 2) false

/-- Concrete solve call on the independent path with minimum transitory
shock zero: no exact-zero asset point is inserted.  The two-atom risky
distribution keeps every knot gap of the bank-balance grid (1, 3, 6)
strictly positive and every first-order-condition row strictly positive,
so the source completes this run with finite numbers throughout and
returns the record. -/
def solveC1 : Except SolveErr PortfolioSolution :=
  solveConsPortfolio kit1 decay0 nextT jointD1 incD1 riskyD2
    1 1 1 1 1 0 [1, 2] [0, 1] false 1 false (1 / 2) true

/-- Degenerate joint distribution whose risky return equals the
risk-free return: one scenario with permanent shock 1, transitory shock
0 and risky return 1. -/
def jointD5 : JointDstn := ⟨[1], [1], [0], [1]⟩

/-- Concrete solve call at the degenerate input where the risky return
identically equals the risk-free return and AdjustPrb is 1: the share
first-order condition is exactly zero across the whole grid, so the
source computes alpha = 1.0 - 0.0/0.0 = nan at line 813 and tabulates a
nan share and consumption; the embedding surfaces this as the nan
outcome. -/
def solveC5x : Except SolveErr PortfolioSolution :=
  solveConsPortfolio kit1 decay0 nextT jointD5 incD1 riskyD1
    1 1 1 1 1 0 [1] [0, 1] false 1 false (1 / 2) false

/-- The record returned by the concrete solve call solveC8 (its defaulted
fallback is never reached, as the solve succeeds). -/
def solC8 : PortfolioSolution :=
  (solutionOf solveC8).getD (update_solution_terminal 1)

/-- A utility kit whose marginal-utility inverse is identically one, so
in particular non-negative everywhere. -/
def kitW : UtilKit :=
  ⟨fun x => x, fun x => 1 / x, fun _ => 1, fun x => x, fun x => x,
   fun x => 1 / x, fun _ => 1⟩

/-- Concrete solve call with the non-negative-inverse kit, used to
witness the range and origin properties of the returned policies. -/
def solveC8W : Except SolveErr PortfolioSolution :=
  solveConsPortfolio kitW decay0 nextT jointD1 incD1 riskyD1
    1 1 1 1 1 0 [1] [0, 1] false 1 false (1 / 2) false

/-- The record returned by solveC8W. -/
def solC8W : PortfolioSolution :=
  (solutionOf solveC8W).getD (update_solution_terminal 1)

/-! ### Helper lemmas -/

/-- The concrete solve call solveC8 succeeds with record solC8. -/
theorem solveC8_ok : solveC8 = Except.ok solC8 := by with_unfolding_all rfl

/-- The concrete solve call solveC8W succeeds with record solC8W. -/
theorem solveC8W_ok : solveC8W = Except.ok solC8W := by with_unfolding_all rfl

/-- The share fork never produces a configuration error: its only error
value is the IndexError of the crossing search. -/
theorem isConfigError_shareFork (kit : UtilKit) (decay : ℚ → ℚ)
    (pr : PathResult) (ShareGrid : List ℚ) (CRRA : ℚ) (vFuncBool : Bool)
    (AdjustPrb : ℚ) (DiscreteShareBool : Bool) (ShareLimit : ℚ)
    (aXtraGrid : List ℚ) :
    isConfigError (shareFork kit decay pr ShareGrid CRRA vFuncBool AdjustPrb
      DiscreteShareBool ShareLimit aXtraGrid) = false := by
  unfold shareFork
  split
  · rfl
  · split
    · rfl
    · split <;> rfl

/-- Inversion for a successful share fork: the record is the assembled
solution over either the discrete or the continuous share choice. -/
theorem shareFork_ok (kit : UtilKit) (decay : ℚ → ℚ) (pr : PathResult)
    (ShareGrid : List ℚ) (CRRA : ℚ) (vFuncBool : Bool) (AdjustPrb : ℚ)
    (DiscreteShareBool : Bool) (ShareLimit : ℚ) (aXtraGrid : List ℚ)
    (sol : PortfolioSolution)
    (h : shareFork kit decay pr ShareGrid CRRA vFuncBool AdjustPrb
      DiscreteShareBool ShareLimit aXtraGrid = Except.ok sol) :
    (DiscreteShareBool = true ∧
      sol = assembleSolution kit decay pr ShareGrid CRRA vFuncBool AdjustPrb
        true ShareLimit aXtraGrid
        (discreteShares pr.zero_bound ShareGrid pr.EndOfPrdv
          pr.EndOfPrddvdaNvrs).1
        (discreteShares pr.zero_bound ShareGrid pr.EndOfPrdv
          pr.EndOfPrddvdaNvrs).2)
    ∨ (DiscreteShareBool = false ∧ ∃ rows,
        mapMOpt (fun j => contShareRow pr.zero_bound j ShareGrid
          (pr.EndOfPrddvds.getD j []) (pr.EndOfPrddvdaNvrs.getD j []))
          (List.range pr.aNrmGrid.length) = some rows ∧
        (List.range pr.aNrmGrid.length).any (fun j =>
          rowNanDegenerate pr.zero_bound j (pr.EndOfPrddvds.getD j [])) = false ∧
        sol = assembleSolution kit decay pr ShareGrid CRRA vFuncBool AdjustPrb
          false ShareLimit aXtraGrid (rows.map Prod.fst) (rows.map Prod.snd)) := by
  unfold shareFork at h
  split at h
  · left
    refine ⟨by assumption, ?_⟩
    cases h
    rfl
  · right
    refine ⟨by simp_all, ?_⟩
    split at h
    · cases h
    · split at h
      · cases h
      · next hnan =>
        cases h
        exact ⟨_, by assumption, by simpa using hnan, rfl⟩

/-- Inversion for a successful solve: the configuration checks passed and
the share fork succeeded on the path selected by the independence flag. -/
theorem solve_ok (kit : UtilKit) (decay : ℚ → ℚ) (next : NextSol)
    (sd : JointDstn) (idn : IncDstn) (rd : RiskyD)
    (LivPrb DiscFac CRRA Rfree PermGroFac BoroCnstArt : ℚ)
    (aXtraGrid ShareGrid : List ℚ) (vFuncBool : Bool) (AdjustPrb : ℚ)
    (DiscreteShareBool : Bool) (ShareLimit : ℚ) (IndepDstnBool : Bool)
    (sol : PortfolioSolution)
    (h : solveConsPortfolio kit decay next sd idn rd LivPrb DiscFac CRRA Rfree
      PermGroFac BoroCnstArt aXtraGrid ShareGrid vFuncBool AdjustPrb
      DiscreteShareBool ShareLimit IndepDstnBool = Except.ok sol) :
    shareFork kit decay
      (if IndepDstnBool then
        indepPath kit next idn rd LivPrb DiscFac Rfree PermGroFac aXtraGrid
          ShareGrid vFuncBool AdjustPrb
      else
        jointPath kit next sd LivPrb DiscFac Rfree PermGroFac aXtraGrid
          ShareGrid vFuncBool AdjustPrb)
      ShareGrid CRRA vFuncBool AdjustPrb DiscreteShareBool ShareLimit
      aXtraGrid = Except.ok sol := by
  unfold solveConsPortfolio at h
  split at h
  · cases h
  · split at h
    · cases h
    · exact h

/-- The defaulted head of a nonempty list is a member. -/
theorem headD_mem_of_ne_nil (l : List ℚ) (d : ℚ) (h : l ≠ []) :
    l.headD d ∈ l := by
  cases l with
  | nil => exact absurd rfl h
  | cons a t => simp [List.headD]

/-- The defaulted last element of a nonempty list is a member. -/
theorem getLastD_mem_of_ne_nil (l : List ℚ) (d : ℚ) (h : l ≠ []) :
    l.getLastD d ∈ l := by
  rw [List.getLastD_eq_getLast?, List.getLast?_eq_getLast l h]
  exact l.getLast_mem h

/-- Discrete intermediate value: a list of at least two values that
starts non-negative and ends non-positive has an adjacent sign change,
so the crossing search succeeds. -/
theorem crossingIdx_isSome (l : List ℚ) (hlen : 2 ≤ l.length)
    (hhead : 0 ≤ l.headD 0) (hlast : l.getLastD 0 ≤ 0) :
    (crossingIdx l).isSome := by
  induction l with
  | nil => simp at hlen
  | cons x t ih =>
    cases t with
    | nil => simp at hlen
    | cons y r =>
      rw [crossingIdx]
      by_cases hc : 0 ≤ x ∧ y ≤ 0
      · rw [if_pos hc]; rfl
      · rw [if_neg hc]
        have hx : 0 ≤ x := by simpa [List.headD] using hhead
        have hy : 0 < y := by
          by_contra hy
          exact hc ⟨hx, le_of_not_lt hy⟩
        cases r with
        | nil =>
          have hy2 : y ≤ 0 := by
            simpa [List.getLastD_eq_getLast?] using hlast
          linarith
        | cons z r2 =>
          have hlast2 : (y :: z :: r2).getLastD 0 ≤ 0 := by
            rw [List.getLastD_eq_getLast?] at hlast ⊢
            rwa [List.getLast?_cons_cons] at hlast
          have ihh := ih (by simp) (by simpa [List.headD] using le_of_lt hy)
            hlast2
          cases hm : crossingIdx (y :: z :: r2) with
          | none => rw [hm] at ihh; cases ihh
          | some k => rfl

/-- Soundness of the crossing search: the found index is an in-range
adjacent pair whose first-order-condition values bracket zero from above
and below. -/
theorem crossingIdx_spec (l : List ℚ) (i : Nat) (h : crossingIdx l = some i) :
    i + 1 < l.length ∧ 0 ≤ l.getD i 0 ∧ l.getD (i + 1) 0 ≤ 0 := by
  induction l generalizing i with
  | nil => simp [crossingIdx] at h
  | cons x t ih =>
    cases t with
    | nil => simp [crossingIdx] at h
    | cons y r =>
      unfold crossingIdx at h
      split at h
      · next hc =>
        cases h
        exact ⟨by simp, by simpa using hc.1, by simpa using hc.2⟩
      · next hc =>
        cases hm : crossingIdx (y :: r) with
        | none => rw [hm] at h; cases h
        | some k =>
          rw [hm] at h
          simp only [Option.map_some'] at h
          cases h
          obtain ⟨h1, h2, h3⟩ := ih k hm
          exact ⟨by simpa using Nat.succ_lt_succ h1, by simpa using h2,
            by simpa using h3⟩

/-- The regula-falsi weight alpha of the crossing interpolation lies in
the unit interval whenever the bracket values satisfy bot ≥ 0 ≥ top; the
degenerate bracket with both values zero follows the rational convention
that division by zero is zero, giving alpha = 1. -/
theorem alpha_mem (b t : ℚ) (hb : 0 ≤ b) (ht : t ≤ 0) :
    0 ≤ 1 - t / (t - b) ∧ 1 - t / (t - b) ≤ 1 := by
  rcases eq_or_lt_of_le (show t - b ≤ 0 by linarith) with heq | hlt
  · rw [heq, div_zero]
    norm_num
  · have h1 : 0 ≤ t / (t - b) :=
      div_nonneg_iff.mpr (Or.inr ⟨ht, le_of_lt hlt⟩)
    have h2 : t / (t - b) ≤ 1 :=
      div_le_one_iff.mpr (Or.inr (Or.inr ⟨hlt, by linarith⟩))
    constructor <;> linarith

/-- A convex combination with weight in the unit interval lies between
its ordered endpoints. -/
theorem combo_between (a s0 s1 : ℚ) (h0 : 0 ≤ a) (h1 : a ≤ 1)
    (hs : s0 ≤ s1) :
    s0 ≤ (1 - a) * s0 + a * s1 ∧ (1 - a) * s0 + a * s1 ≤ s1 := by
  constructor <;> nlinarith

/-- A convex combination of two values in an interval stays in the
interval, with no order assumption on the endpoints. -/
theorem combo_mem (a y0 y1 lo hi : ℚ) (h0 : 0 ≤ a) (h1 : a ≤ 1)
    (hy0 : lo ≤ y0) (hy0h : y0 ≤ hi) (hy1 : lo ≤ y1) (hy1h : y1 ≤ hi) :
    lo ≤ (1 - a) * y0 + a * y1 ∧ (1 - a) * y0 + a * y1 ≤ hi := by
  constructor <;> nlinarith

/-- Adjacent entries of a chain-sorted list are ordered, read through
defaulted indexing. -/
theorem chain_getD_le (l : List ℚ) (hl : List.Chain' (· ≤ ·) l) (i : Nat)
    (h : i + 1 < l.length) : l.getD i 0 ≤ l.getD (i + 1) 0 := by
  have hi : i < l.length := Nat.lt_of_succ_lt h
  rw [List.getD_eq_getElem l 0 hi, List.getD_eq_getElem l 0 h]
  exact List.chain'_iff_get.mp hl i (by omega)

/-- A bounded linear interpolant with slope limit 0 approaches its
intercept limit as the argument grows, for any decay shape vanishing at
infinity. -/
theorem linterpEvalLim_tendsto (decay : ℚ → ℚ)
    (hdec : ∀ ε : ℚ, 0 < ε → ∃ T : ℚ, ∀ t, T ≤ t → |decay t| ≤ ε)
    (xs ys : List ℚ) (il ε : ℚ) (hε : 0 < ε) :
    ∃ M : ℚ, ∀ m, M ≤ m → |linterpEvalLim decay xs ys il 0 m - il| ≤ ε := by
  obtain ⟨T, hT⟩ := hdec (ε / (|il + 0 * xs.getLastD 0 - ys.getLastD 0| + 1))
    (by positivity)
  refine ⟨max (xs.getLastD 0 + 1) (T + xs.getLastD 0), fun m hm => ?_⟩
  have hm1 : xs.getLastD 0 + 1 ≤ m := le_trans (le_max_left _ _) hm
  have hm2 : T + xs.getLastD 0 ≤ m := le_trans (le_max_right _ _) hm
  have hx : ¬ m ≤ xs.getLastD 0 := by linarith
  have hd := hT (m - xs.getLastD 0) (by linarith)
  unfold linterpEvalLim
  rw [if_neg hx]
  have heq : il + 0 * m -
      (il + 0 * xs.getLastD 0 - ys.getLastD 0) * decay (m - xs.getLastD 0)
      - il =
      -((il + 0 * xs.getLastD 0 - ys.getLastD 0) *
        decay (m - xs.getLastD 0)) := by ring
  rw [heq, abs_neg, abs_mul]
  have hpos : (0 : ℚ) < |il + 0 * xs.getLastD 0 - ys.getLastD 0| + 1 := by
    positivity
  calc |il + 0 * xs.getLastD 0 - ys.getLastD 0| * |decay (m - xs.getLastD 0)|
      ≤ |il + 0 * xs.getLastD 0 - ys.getLastD 0| *
          (ε / (|il + 0 * xs.getLastD 0 - ys.getLastD 0| + 1)) :=
        mul_le_mul_of_nonneg_left hd (abs_nonneg _)
    _ ≤ ε := by
        rw [mul_div_assoc']
        rw [div_le_iff₀ hpos]
        nlinarith [abs_nonneg (il + 0 * xs.getLastD 0 - ys.getLastD 0)]

/-- The continuous-branch adjustable share function of an assembled
solution is a bounded linear interpolant whose asymptote bounds are the
precomputed share limit intercept and zero slope. -/
theorem assembleSolution_ShareFuncAdj_cont (kit : UtilKit) (decay : ℚ → ℚ)
    (pr : PathResult) (SG : List ℚ) (crra : ℚ) (vb : Bool) (ap SL : ℚ)
    (aX sn cn : List ℚ) :
    (assembleSolution kit decay pr SG crra vb ap false SL aX sn cn).ShareFuncAdj
      = Fun1.LinearInterp
          (0 :: List.zipWith (fun a c => a + c) pr.aNrmGrid cn)
          ((if pr.zero_bound then SL else 1) :: sn)
          (some (SL, 0)) := rfl

/-- Defaulted indexing into a pointwise non-negative list is
non-negative. -/
theorem getD_nonneg (l : List ℚ) (h : ∀ x ∈ l, 0 ≤ x) (i : Nat) :
    0 ≤ l.getD i 0 := by
  by_cases hi : i < l.length
  · rw [List.getD_eq_getElem l 0 hi]
    exact h _ (l.getElem_mem hi)
  · rw [List.getD_eq_default l 0 (le_of_not_lt hi)]

/-- Defaulted indexing into a list with values in the unit interval stays
in the unit interval. -/
theorem getD_mem01 (l : List ℚ) (h : ∀ x ∈ l, 0 ≤ x ∧ x ≤ 1) (i : Nat) :
    0 ≤ l.getD i 0 ∧ l.getD i 0 ≤ 1 := by
  by_cases hi : i < l.length
  · rw [List.getD_eq_getElem l 0 hi]
    exact h _ (l.getElem_mem hi)
  · rw [List.getD_eq_default l 0 (le_of_not_lt hi)]
    norm_num

/-- The defaulted head of a pointwise non-negative list is
non-negative. -/
theorem headD_nonneg (l : List ℚ) (h : ∀ x ∈ l, 0 ≤ x) :
    0 ≤ l.headD 0 := by
  cases l with
  | nil => simp
  | cons a t => exact h _ (headD_mem_of_ne_nil (a :: t) 0 (by simp))

/-- The defaulted last element of a pointwise non-negative list is
non-negative. -/
theorem getLastD_nonneg (l : List ℚ) (h : ∀ x ∈ l, 0 ≤ x) :
    0 ≤ l.getLastD 0 := by
  cases l with
  | nil => simp
  | cons a t => exact h _ (getLastD_mem_of_ne_nil (a :: t) 0 (by simp))

/-- Pointwise addition of two non-negative lists is non-negative. -/
theorem mem_zipWith_add_nonneg (l1 l2 : List ℚ) (x : ℚ)
    (hx : x ∈ List.zipWith (fun a c => a + c) l1 l2)
    (h1 : ∀ a ∈ l1, 0 ≤ a) (h2 : ∀ c ∈ l2, 0 ≤ c) : 0 ≤ x := by
  induction l1 generalizing l2 with
  | nil => simp at hx
  | cons a t ih =>
    cases l2 with
    | nil => simp at hx
    | cons c t2 =>
      simp only [List.zipWith_cons_cons, List.mem_cons] at hx
      rcases hx with rfl | hx
      · have := h1 a (by simp)
        have := h2 c (by simp)
        linarith
      · exact ih t2 hx (fun y hy => h1 y (by simp [hy]))
          (fun y hy => h2 y (by simp [hy]))

/-- Sequencing preserves length. -/
theorem mapMOpt_length {α β : Type} (f : α → Option β) :
    ∀ (l : List α) (res : List β), mapMOpt f l = some res →
      res.length = l.length
  | [], res, h => by cases h; rfl
  | a :: l, res, h => by
    unfold mapMOpt at h
    cases hf : f a with
    | none => rw [hf] at h; cases h
    | some b =>
      rw [hf] at h
      cases hrec : mapMOpt f l with
      | none => rw [hrec] at h; cases h
      | some bs =>
        rw [hrec] at h
        cases h
        simp [mapMOpt_length f l bs hrec]

/-- Every element of a sequenced list arises from applying the function
to some input element. -/
theorem mapMOpt_mem {α β : Type} (f : α → Option β) :
    ∀ (l : List α) (res : List β), mapMOpt f l = some res →
      ∀ b ∈ res, ∃ a ∈ l, f a = some b
  | [], res, h => by cases h; simp
  | a :: l, res, h => by
    unfold mapMOpt at h
    cases hf : f a with
    | none => rw [hf] at h; cases h
    | some b0 =>
      rw [hf] at h
      cases hrec : mapMOpt f l with
      | none => rw [hrec] at h; cases h
      | some bs =>
        rw [hrec] at h
        cases h
        intro b hb
        rcases List.mem_cons.mp hb with rfl | hb2
        · exact ⟨a, by simp, hf⟩
        · obtain ⟨a2, ha2, hfa2⟩ := mapMOpt_mem f l bs hrec b hb2
          exact ⟨a2, by simp [ha2], hfa2⟩

/-- The defaulted last pair of a zip of equal-length nonempty lists is
the pair of defaulted last elements. -/
theorem zip_getLastD (xs ys : List ℚ) (hlen : xs.length = ys.length)
    (hne : xs ≠ []) :
    (xs.zip ys).getLastD (0, 0) = (xs.getLastD 0, ys.getLastD 0) := by
  induction xs generalizing ys with
  | nil => exact absurd rfl hne
  | cons x t ih =>
    cases ys with
    | nil => simp at hlen
    | cons y t2 =>
      cases t with
      | nil =>
        cases t2 with
        | nil => rfl
        | cons z r => simp at hlen
      | cons x2 r =>
        cases t2 with
        | nil => simp at hlen
        | cons y2 r2 =>
          have hrec := ih (y2 :: r2) (by simpa using hlen) (by simp)
          simp only [List.zip_cons_cons] at hrec ⊢
          simp only [List.getLastD_eq_getLast?, List.getLast?_cons_cons]
            at hrec ⊢
          exact hrec

/-- A linear segment evaluated between its endpoints stays inside any
interval containing both endpoint values; a duplicated abscissa falls
back to the left value by the division-by-zero convention. -/
theorem segEval_bound (x0 y0 x1 y1 x lo hi : ℚ)
    (h0 : lo ≤ y0) (h0h : y0 ≤ hi) (h1 : lo ≤ y1) (h1h : y1 ≤ hi)
    (hx0 : x0 ≤ x) (hx1 : x ≤ x1) :
    lo ≤ segEval x0 y0 x1 y1 x ∧ segEval x0 y0 x1 y1 x ≤ hi := by
  rcases eq_or_lt_of_le (le_trans hx0 hx1) with heq | hlt
  · have hx : x = x0 := le_antisymm (heq ▸ hx1) hx0
    have hz : x1 - x0 = 0 := by rw [← heq]; ring
    unfold segEval
    rw [hz, div_zero, zero_mul, add_zero]
    exact ⟨h0, h0h⟩
  · have ht0 : 0 ≤ (x - x0) / (x1 - x0) :=
      div_nonneg (by linarith) (by linarith)
    have ht1 : (x - x0) / (x1 - x0) ≤ 1 :=
      (div_le_one (by linarith)).mpr (by linarith)
    have heq2 : segEval x0 y0 x1 y1 x =
        (1 - (x - x0) / (x1 - x0)) * y0 + ((x - x0) / (x1 - x0)) * y1 := by
      unfold segEval
      field_simp
      ring
    rw [heq2]
    exact combo_mem _ y0 y1 lo hi ht0 ht1 h0 h0h h1 h1h

/-- Piecewise-linear evaluation between the first and last sampled
abscissae stays inside any interval around zero that contains all
sampled values. -/
theorem piecewiseLinear_bound (lo hi : ℚ) (hlo : lo ≤ 0) (hhi : 0 ≤ hi) :
    ∀ (ps : List (ℚ × ℚ)) (x : ℚ),
      (∀ p ∈ ps, lo ≤ p.2 ∧ p.2 ≤ hi) →
      (ps ≠ [] → (ps.headD (0, 0)).1 ≤ x ∧ x ≤ (ps.getLastD (0, 0)).1) →
      lo ≤ piecewiseLinear ps x ∧ piecewiseLinear ps x ≤ hi
  | [], x, hmem, hx => by
    simpa [piecewiseLinear] using ⟨hlo, hhi⟩
  | [(x0, y0)], x, hmem, hx => by
    simpa [piecewiseLinear] using hmem (x0, y0) (by simp)
  | [(x0, y0), (x1, y1)], x, hmem, hx => by
    have h := hx (by simp)
    have hm0 := hmem (x0, y0) (by simp)
    have hm1 := hmem (x1, y1) (by simp)
    simp only [List.headD, List.getLastD_eq_getLast?] at h
    simp only [piecewiseLinear]
    exact segEval_bound x0 y0 x1 y1 x lo hi hm0.1 hm0.2 hm1.1 hm1.2
      (by simpa using h.1) (by simpa [List.getLast?] using h.2)
  | (x0, y0) :: (x1, y1) :: p :: ps, x, hmem, hx => by
    have h := hx (by simp)
    have hlast : ((x0, y0) :: (x1, y1) :: p :: ps).getLastD (0, 0)
        = ((x1, y1) :: p :: ps).getLastD (0, 0) := by
      simp [List.getLastD_eq_getLast?, List.getLast?_cons_cons]
    rw [piecewiseLinear]
    split
    · next hle =>
      have hm0 := hmem (x0, y0) (by simp)
      have hm1 := hmem (x1, y1) (by simp)
      exact segEval_bound x0 y0 x1 y1 x lo hi hm0.1 hm0.2 hm1.1 hm1.2
        (by simpa using h.1) hle
    · next hgt =>
      refine piecewiseLinear_bound lo hi hlo hhi ((x1, y1) :: p :: ps) x
        (fun q hq => hmem q (by simp [hq]))
        (fun _ => ⟨by simpa using le_of_not_le hgt, ?_⟩)
      rw [hlast] at h
      exact h.2

/-- Evaluating a piecewise-linear interpolant exactly at its first
sampled abscissa returns the first sampled value, provided the remaining
abscissae are not below it. -/
theorem piecewiseLinear_at_x0 (x0 y0 : ℚ) (rest : List (ℚ × ℚ))
    (hrest : ∀ p ∈ rest, x0 ≤ p.1) :
    piecewiseLinear ((x0, y0) :: rest) x0 = y0 := by
  cases rest with
  | nil => rfl
  | cons q rest2 =>
    cases rest2 with
    | nil =>
      simp [piecewiseLinear, segEval]
    | cons q2 rest3 =>
      rw [piecewiseLinear]
      rw [if_pos (hrest q (by simp))]
      simp [segEval]

/-- A convex combination of two non-negative values is non-negative. -/
theorem combo_nonneg (a y0 y1 : ℚ) (h0 : 0 ≤ a) (h1 : a ≤ 1)
    (hy0 : 0 ≤ y0) (hy1 : 0 ≤ y1) : 0 ≤ (1 - a) * y0 + a * y1 := by
  nlinarith

/-- Whatever the constraint pattern, a successful continuous-share row
returns a share inside the unit interval (given a share grid inside the
unit interval) and a non-negative consumption (given non-negative
inverse-marginal-value tabulations). -/
theorem contShareRow_mem (zb : Bool) (j : Nat) (SG foc nvrs : List ℚ)
    (hSG : ∀ s ∈ SG, 0 ≤ s ∧ s ≤ 1) (hnv : ∀ x ∈ nvrs, 0 ≤ x)
    (sh c : ℚ) (h : contShareRow zb j SG foc nvrs = some (sh, c)) :
    (0 ≤ sh ∧ sh ≤ 1) ∧ 0 ≤ c := by
  have hnvh := headD_nonneg nvrs hnv
  have hnvl := getLastD_nonneg nvrs hnv
  simp only [contShareRow] at h
  split at h
  · split at h
    · cases h
      exact ⟨⟨by norm_num, le_refl 1⟩, hnvh⟩
    · cases h
      exact ⟨⟨by norm_num, le_refl 1⟩, hnvl⟩
  · split at h
    · cases h
      exact ⟨⟨le_refl 0, by norm_num⟩, hnvh⟩
    · split at h
      · cases h
      · next idx heq =>
        cases h
        obtain ⟨hlt, hb, ht⟩ := crossingIdx_spec foc idx heq
        obtain ⟨ha0, ha1⟩ := alpha_mem (foc.getD idx 0) (foc.getD (idx + 1) 0)
          hb ht
        obtain ⟨hg0, hg1⟩ := getD_mem01 SG hSG idx
        obtain ⟨hg0b, hg1b⟩ := getD_mem01 SG hSG (idx + 1)
        refine ⟨combo_mem _ _ _ 0 1 ha0 ha1 hg0 hg1 hg0b hg1b, ?_⟩
        exact combo_nonneg _ _ _ ha0 ha1 (getD_nonneg nvrs hnv idx)
          (getD_nonneg nvrs hnv (idx + 1))

/-- The discrete-share choice returns tabulated shares inside the unit
interval and non-negative tabulated consumptions. -/
theorem discreteShares_mem (zb : Bool) (SG : List ℚ) (V Nvrs : List (List ℚ))
    (hSG : ∀ s ∈ SG, 0 ≤ s ∧ s ≤ 1)
    (hnv : ∀ row ∈ Nvrs, ∀ x ∈ row, 0 ≤ x) :
    (∀ s ∈ (discreteShares zb SG V Nvrs).1, 0 ≤ s ∧ s ≤ 1)
    ∧ (∀ c ∈ (discreteShares zb SG V Nvrs).2, 0 ≤ c) := by
  have hbase1 : ∀ s ∈ (V.map argmaxIdx).map (fun i => SG.getD i 0),
      0 ≤ s ∧ s ≤ 1 := by
    intro s hs
    obtain ⟨i, _, rfl⟩ := List.mem_map.mp hs
    exact getD_mem01 SG hSG i
  have hbase2 : ∀ c ∈ (Nvrs.zip (V.map argmaxIdx)).map
      (fun p => p.1.getD p.2 0), 0 ≤ c := by
    intro c hc
    obtain ⟨p, hp, rfl⟩ := List.mem_map.mp hc
    exact getD_nonneg p.1 (hnv p.1 (List.of_mem_zip hp).1) p.2
  unfold discreteShares
  by_cases hzb : zb
  · rw [if_pos hzb]
    exact ⟨hbase1, hbase2⟩
  · rw [if_neg hzb]
    constructor
    · intro s hs
      rcases List.mem_or_eq_of_mem_set hs with hs2 | rfl
      · exact hbase1 s hs2
      · exact ⟨by norm_num, le_refl 1⟩
    · intro c hc
      rcases List.mem_or_eq_of_mem_set hc with hc2 | rfl
      · exact hbase2 c hc2
      · apply getLastD_nonneg
        intro x hx
        cases Nvrs with
        | nil => simp at hx
        | cons r rs => exact hnv r (by simp) x (by simpa using hx)

/-- The asset grids built on the two paths agree. -/
theorem aNrmGrid_joint_eq_indep (zb : Bool) (aX : List ℚ) :
    aNrmGrid_joint zb aX = aNrmGrid_indep zb aX := rfl

/-- The asset grid inherits non-negativity from the external grid; the
optionally inserted point is exactly zero. -/
theorem aNrmGrid_indep_nonneg (zb : Bool) (aX : List ℚ)
    (h : ∀ a ∈ aX, 0 ≤ a) : ∀ a ∈ aNrmGrid_indep zb aX, 0 ≤ a := by
  unfold aNrmGrid_indep
  split
  · exact h
  · intro a ha
    rcases List.mem_cons.mp ha with rfl | ha2
    · exact le_refl 0
    · exact h a ha2

/-- The independent path tabulates the inverse marginal value as the
pointwise uPinv image of the end-of-period marginal value. -/
theorem indepPath_Nvrs (kit : UtilKit) (next : NextSol) (idn : IncDstn)
    (rd : RiskyD) (lp df rf pgf : ℚ) (aX SG : List ℚ) (vb : Bool) (ap : ℚ) :
    (indepPath kit next idn rd lp df rf pgf aX SG vb ap).EndOfPrddvdaNvrs
      = (indepPath kit next idn rd lp df rf pgf aX SG vb
        ap).EndOfPrddvda.map (fun row => row.map kit.uPinv) := rfl

/-- The joint path tabulates the inverse marginal value as the pointwise
uPinv image of the end-of-period marginal value. -/
theorem jointPath_Nvrs (kit : UtilKit) (next : NextSol) (sd : JointDstn)
    (lp df rf pgf : ℚ) (aX SG : List ℚ) (vb : Bool) (ap : ℚ) :
    (jointPath kit next sd lp df rf pgf aX SG vb ap).EndOfPrddvdaNvrs
      = (jointPath kit next sd lp df rf pgf aX SG vb
        ap).EndOfPrddvda.map (fun row => row.map kit.uPinv) := rfl

/-- The independent path passes the constructed asset grid through. -/
theorem indepPath_aNrmGrid (kit : UtilKit) (next : NextSol) (idn : IncDstn)
    (rd : RiskyD) (lp df rf pgf : ℚ) (aX SG : List ℚ) (vb : Bool) (ap : ℚ) :
    (indepPath kit next idn rd lp df rf pgf aX SG vb ap).aNrmGrid
      = aNrmGrid_indep (zero_bound_of idn.TranShk) aX := rfl

/-- The joint path passes the constructed asset grid through. -/
theorem jointPath_aNrmGrid (kit : UtilKit) (next : NextSol) (sd : JointDstn)
    (lp df rf pgf : ℚ) (aX SG : List ℚ) (vb : Bool) (ap : ℚ) :
    (jointPath kit next sd lp df rf pgf aX SG vb ap).aNrmGrid
      = aNrmGrid_joint (zero_bound_of sd.TranShks) aX := rfl

/-- The assembled adjustable consumption function is the unbounded linear
interpolant through the zero-prepended endogenous grid and consumption
values. -/
theorem assembleSolution_cFuncAdj (kit : UtilKit) (decay : ℚ → ℚ)
    (pr : PathResult) (SG : List ℚ) (crra : ℚ) (vb : Bool) (ap : ℚ)
    (dsb : Bool) (SL : ℚ) (aX sn cn : List ℚ) :
    (assembleSolution kit decay pr SG crra vb ap dsb SL aX sn cn).cFuncAdj
      = Fun1.LinearInterp
          (0 :: List.zipWith (fun a c => a + c) pr.aNrmGrid cn)
          (0 :: cn) none := rfl

/-- An unbounded linear interpolant evaluates by piecewise-linear
interpolation through the zipped sample points. -/
theorem Fun1.eval_LinearInterp_none (kit : UtilKit) (decay : ℚ → ℚ)
    (xs ys : List ℚ) (m : ℚ) :
    Fun1.eval kit decay (Fun1.LinearInterp xs ys none) m
      = piecewiseLinear (xs.zip ys) m := rfl

/-- The discrete-branch adjustable share function is the unbounded linear
interpolant through the comb grid (zero, the interleaved midpoints and
nudged midpoints, the last endogenous gridpoint) whose tabulated values
duplicate each chosen share. -/
theorem assembleSolution_ShareFuncAdj_disc (kit : UtilKit) (decay : ℚ → ℚ)
    (pr : PathResult) (SG : List ℚ) (crra : ℚ) (vb : Bool) (ap SL : ℚ)
    (aX sn cn : List ℚ) :
    (assembleSolution kit decay pr SG crra vb ap true SL aX sn
      cn).ShareFuncAdj
      = Fun1.LinearInterp
          (0 ::
            (((List.zipWith (fun x y => (x + y) / 2)
                (List.zipWith (fun a c => a + c) pr.aNrmGrid cn).tail
                (List.zipWith (fun a c => a + c) pr.aNrmGrid cn)).zip
              ((List.zipWith (fun x y => (x + y) / 2)
                (List.zipWith (fun a c => a + c) pr.aNrmGrid cn).tail
                (List.zipWith (fun a c => a + c) pr.aNrmGrid cn)).map
                (fun x => x * (1 + 1 / 1000000000000)))).flatMap
                (fun p => [p.1, p.2])
              ++ [(List.zipWith (fun a c => a + c) pr.aNrmGrid
                cn).getLastD 0]))
          (sn.flatMap (fun s => [s, s])) none := rfl

/-- A linear segment evaluated between its endpoints is non-negative
when both endpoint values are. -/
theorem segEval_nonneg (x0 y0 x1 y1 x : ℚ) (h0 : 0 ≤ y0) (h1 : 0 ≤ y1)
    (hx0 : x0 ≤ x) (hx1 : x ≤ x1) : 0 ≤ segEval x0 y0 x1 y1 x := by
  rcases eq_or_lt_of_le (le_trans hx0 hx1) with heq | hlt
  · have hz : x1 - x0 = 0 := by rw [← heq]; ring
    unfold segEval
    rw [hz, div_zero, zero_mul, add_zero]
    exact h0
  · have ht0 : 0 ≤ (x - x0) / (x1 - x0) :=
      div_nonneg (by linarith) (by linarith)
    have ht1 : (x - x0) / (x1 - x0) ≤ 1 :=
      (div_le_one (by linarith)).mpr (by linarith)
    have heq2 : segEval x0 y0 x1 y1 x =
        (1 - (x - x0) / (x1 - x0)) * y0 + ((x - x0) / (x1 - x0)) * y1 := by
      unfold segEval
      field_simp
      ring
    rw [heq2]
    exact combo_nonneg _ _ _ ht0 ht1 h0 h1

/-- Piecewise-linear evaluation between the first and last sampled
abscissae is non-negative when all sampled values are. -/
theorem piecewiseLinear_nonneg :
    ∀ (ps : List (ℚ × ℚ)) (x : ℚ),
      (∀ p ∈ ps, 0 ≤ p.2) →
      (ps ≠ [] → (ps.headD (0, 0)).1 ≤ x ∧ x ≤ (ps.getLastD (0, 0)).1) →
      0 ≤ piecewiseLinear ps x
  | [], x, hmem, hx => by simp [piecewiseLinear]
  | [(x0, y0)], x, hmem, hx => by
    simpa [piecewiseLinear] using hmem (x0, y0) (by simp)
  | [(x0, y0), (x1, y1)], x, hmem, hx => by
    have h := hx (by simp)
    have hm0 := hmem (x0, y0) (by simp)
    have hm1 := hmem (x1, y1) (by simp)
    simp only [List.headD, List.getLastD_eq_getLast?] at h
    simp only [piecewiseLinear]
    exact segEval_nonneg x0 y0 x1 y1 x hm0 hm1 (by simpa using h.1)
      (by simpa [List.getLast?] using h.2)
  | (x0, y0) :: (x1, y1) :: p :: ps, x, hmem, hx => by
    have h := hx (by simp)
    have hlast : ((x0, y0) :: (x1, y1) :: p :: ps).getLastD (0, 0)
        = ((x1, y1) :: p :: ps).getLastD (0, 0) := by
      simp [List.getLastD_eq_getLast?, List.getLast?_cons_cons]
    rw [piecewiseLinear]
    split
    · next hle =>
      exact segEval_nonneg x0 y0 x1 y1 x (hmem (x0, y0) (by simp))
        (hmem (x1, y1) (by simp)) (by simpa using h.1) hle
    · next hgt =>
      refine piecewiseLinear_nonneg ((x1, y1) :: p :: ps) x
        (fun q hq => hmem q (by simp [hq]))
        (fun _ => ⟨by simpa using le_of_not_le hgt, ?_⟩)
      rw [hlast] at h
      exact h.2

/-- The assembled consumption function passes through the origin,
tabulates only non-negative values, and evaluates non-negatively on the
whole sampled range, for any non-negative asset grid and consumption
choices of the grid length. -/
theorem assembled_cFuncAdj_facts (kit : UtilKit) (decay : ℚ → ℚ)
    (pr : PathResult) (SG : List ℚ) (crra : ℚ) (vb : Bool) (ap : ℚ)
    (dsb : Bool) (SL : ℚ) (aX sn cn : List ℚ)
    (hA : ∀ a ∈ pr.aNrmGrid, 0 ≤ a) (hcn : ∀ c ∈ cn, 0 ≤ c)
    (hclen : cn.length = pr.aNrmGrid.length) :
    Fun1.eval kit decay
      (assembleSolution kit decay pr SG crra vb ap dsb SL aX sn cn).cFuncAdj 0
      = 0
    ∧ ∃ xs ys,
        (assembleSolution kit decay pr SG crra vb ap dsb SL aX sn cn).cFuncAdj
          = Fun1.LinearInterp xs ys none
        ∧ (∀ y ∈ ys, 0 ≤ y)
        ∧ ∀ m, 0 ≤ m → m ≤ xs.getLastD 0 →
            0 ≤ Fun1.eval kit decay
              (assembleSolution kit decay pr SG crra vb ap dsb SL aX sn
                cn).cFuncAdj m := by
  rw [assembleSolution_cFuncAdj]
  have hmemy : ∀ y ∈ (0 :: cn), 0 ≤ y := by
    intro y hy
    rcases List.mem_cons.mp hy with rfl | hy2
    · exact le_refl 0
    · exact hcn y hy2
  have hlen2 : (0 :: List.zipWith (fun a c => a + c) pr.aNrmGrid cn).length
      = (0 :: cn).length := by
    simp [List.length_zipWith, hclen]
  refine ⟨?_, _, _, rfl, hmemy, ?_⟩
  · show piecewiseLinear
      ((0 :: List.zipWith (fun a c => a + c) pr.aNrmGrid cn).zip (0 :: cn)) 0
      = 0
    rw [List.zip_cons_cons]
    apply piecewiseLinear_at_x0
    intro p hp
    obtain ⟨a, b⟩ := p
    exact mem_zipWith_add_nonneg pr.aNrmGrid cn a (List.of_mem_zip hp).1 hA hcn
  · intro m hm hmle
    show 0 ≤ piecewiseLinear
      ((0 :: List.zipWith (fun a c => a + c) pr.aNrmGrid cn).zip (0 :: cn)) m
    apply piecewiseLinear_nonneg
    · intro p hp
      obtain ⟨a, b⟩ := p
      exact hmemy b (List.of_mem_zip hp).2
    · intro _
      constructor
      · simpa [List.zip_cons_cons] using hm
      · rw [zip_getLastD _ _ hlen2 (by simp)]
        exact hmle

/-- A bounded linear interpolant over a zero-headed grid with equal-length
unit-interval values, intercept limit in the unit interval and slope
limit 0 stays inside the unit interval at every non-negative argument,
for any decay shape valued in the unit interval. -/
theorem linterpEvalLim_range (decay : ℚ → ℚ) (xt : List ℚ) (ys : List ℚ)
    (SL m : ℚ) (hys : ∀ y ∈ ys, 0 ≤ y ∧ y ≤ 1)
    (hSL0 : 0 ≤ SL) (hSL1 : SL ≤ 1)
    (hdec : ∀ t, 0 ≤ decay t ∧ decay t ≤ 1)
    (hlen : (0 :: xt).length = ys.length) (hm : 0 ≤ m) :
    0 ≤ linterpEvalLim decay (0 :: xt) ys SL 0 m
    ∧ linterpEvalLim decay (0 :: xt) ys SL 0 m ≤ 1 := by
  cases ys with
  | nil => simp at hlen
  | cons y0 ys2 =>
    simp only [linterpEvalLim]
    split
    · next hle =>
      apply piecewiseLinear_bound 0 1 (le_refl 0) zero_le_one
      · intro p hp
        obtain ⟨a, b⟩ := p
        exact hys b (List.of_mem_zip hp).2
      · intro _
        constructor
        · simpa [List.zip_cons_cons] using hm
        · rw [zip_getLastD _ _ hlen (by simp)]
          exact hle
    · next hgt =>
      have hyL := hys _ (getLastD_mem_of_ne_nil (y0 :: ys2) 0 (by simp))
      have hd := hdec (m - (0 :: xt).getLastD 0)
      have heq : SL + 0 * m -
          (SL + 0 * (0 :: xt).getLastD 0 - (y0 :: ys2).getLastD 0) *
            decay (m - (0 :: xt).getLastD 0)
          = SL * (1 - decay (m - (0 :: xt).getLastD 0))
            + (y0 :: ys2).getLastD 0 * decay (m - (0 :: xt).getLastD 0) := by
        ring
      rw [heq]
      constructor <;> nlinarith [hd.1, hd.2, hyL.1, hyL.2]

/-- The inserted lower-bound share, ShareLimit under the zero bound and
1 otherwise, lies in the unit interval when ShareLimit does. -/
theorem if_SL_mem01 (b : Bool) (SL : ℚ) (h0 : 0 ≤ SL) (h1 : SL ≤ 1) :
    0 ≤ (if b then SL else (1 : ℚ)) ∧ (if b then SL else (1 : ℚ)) ≤ 1 := by
  cases b <;> simp [h0, h1]

/-- A successful solve with discrete share optimization implies the
value function was requested: the second configuration check admits no
other way through. -/
theorem solve_ok_config (kit : UtilKit) (decay : ℚ → ℚ) (next : NextSol)
    (sd : JointDstn) (idn : IncDstn) (rd : RiskyD)
    (LivPrb DiscFac CRRA Rfree PermGroFac BoroCnstArt : ℚ)
    (aXtraGrid ShareGrid : List ℚ) (vFuncBool : Bool) (AdjustPrb : ℚ)
    (DiscreteShareBool : Bool) (ShareLimit : ℚ) (IndepDstnBool : Bool)
    (sol : PortfolioSolution)
    (h : solveConsPortfolio kit decay next sd idn rd LivPrb DiscFac CRRA Rfree
      PermGroFac BoroCnstArt aXtraGrid ShareGrid vFuncBool AdjustPrb
      DiscreteShareBool ShareLimit IndepDstnBool = Except.ok sol) :
    DiscreteShareBool = true → vFuncBool = true := by
  intro hd
  unfold solveConsPortfolio at h
  split at h
  · cases h
  · split at h
    · cases h
    · next h2 =>
      by_contra hv
      exact h2 ⟨hd, by simpa using hv⟩

/-- The independent path tabulates the end-of-period marginal value row
by row over its asset grid. -/
theorem indepPath_dvda_shape (kit : UtilKit) (next : NextSol) (idn : IncDstn)
    (rd : RiskyD) (lp df rf pgf : ℚ) (aX SG : List ℚ) (vb : Bool) (ap : ℚ) :
    ∃ f, (indepPath kit next idn rd lp df rf pgf aX SG vb ap).EndOfPrddvda
      = (indepPath kit next idn rd lp df rf pgf aX SG vb ap).aNrmGrid.map f :=
  ⟨_, rfl⟩

/-- The joint path tabulates the end-of-period marginal value row by row
over its asset grid. -/
theorem jointPath_dvda_shape (kit : UtilKit) (next : NextSol) (sd : JointDstn)
    (lp df rf pgf : ℚ) (aX SG : List ℚ) (vb : Bool) (ap : ℚ) :
    ∃ f, (jointPath kit next sd lp df rf pgf aX SG vb ap).EndOfPrddvda
      = (jointPath kit next sd lp df rf pgf aX SG vb ap).aNrmGrid.map f :=
  ⟨_, rfl⟩

/-- With the value function requested, the independent path tabulates the
end-of-period value row by row over its asset grid. -/
theorem indepPath_v_shape (kit : UtilKit) (next : NextSol) (idn : IncDstn)
    (rd : RiskyD) (lp df rf pgf : ℚ) (aX SG : List ℚ) (ap : ℚ) :
    ∃ f, (indepPath kit next idn rd lp df rf pgf aX SG true ap).EndOfPrdv
      = (indepPath kit next idn rd lp df rf pgf aX SG true ap).aNrmGrid.map f :=
  ⟨_, rfl⟩

/-- With the value function requested, the joint path tabulates the
end-of-period value row by row over its asset grid. -/
theorem jointPath_v_shape (kit : UtilKit) (next : NextSol) (sd : JointDstn)
    (lp df rf pgf : ℚ) (aX SG : List ℚ) (ap : ℚ) :
    ∃ f, (jointPath kit next sd lp df rf pgf aX SG true ap).EndOfPrdv
      = (jointPath kit next sd lp df rf pgf aX SG true ap).aNrmGrid.map f :=
  ⟨_, rfl⟩

/-- The discrete-share choice returns one share per value row and one
consumption per paired inverse-marginal-value row. -/
theorem discreteShares_lengths (zb : Bool) (SG : List ℚ)
    (V Nvrs : List (List ℚ)) :
    (discreteShares zb SG V Nvrs).1.length = V.length
    ∧ (discreteShares zb SG V Nvrs).2.length = min Nvrs.length V.length := by
  unfold discreteShares
  by_cases hzb : zb <;>
    simp [hzb, List.length_set, List.length_zip]

/-- Duplicating every element doubles the length. -/
theorem flatMap_dup_length (l : List ℚ) :
    (l.flatMap (fun s => [s, s])).length = 2 * l.length := by
  induction l with
  | nil => rfl
  | cons a t ih =>
    simp only [List.flatMap_cons, List.length_append, List.length_cons, ih]
    simp
    omega

/-- Flattening a pair list into its two components doubles the length. -/
theorem flatMap_pair_length (l : List (ℚ × ℚ)) :
    (l.flatMap (fun p => [p.1, p.2])).length = 2 * l.length := by
  induction l with
  | nil => rfl
  | cons a t ih =>
    simp only [List.flatMap_cons, List.length_append, List.length_cons, ih]
    simp
    omega

/-- The duplicated list of a nonempty list ends in a duplicated pair. -/
theorem flatMap_dup_decomp (l : List ℚ) (h : l ≠ []) :
    ∃ l0 s, l.flatMap (fun x => [x, x]) = l0 ++ [s, s] := by
  induction l with
  | nil => exact absurd rfl h
  | cons a t ih =>
    cases t with
    | nil => exact ⟨[], a, rfl⟩
    | cons b r =>
      obtain ⟨l0, s, hs⟩ := ih (by simp)
      refine ⟨a :: a :: l0, s, ?_⟩
      simp only [List.flatMap_cons] at hs ⊢
      simp [hs]

/-- A list two longer than n splits into a prefix of length n and its
last two elements. -/
theorem exists_split_last_two {α : Type} (xs : List α) (n : Nat)
    (h : xs.length = n + 2) :
    ∃ xs0 a b, xs = xs0 ++ [a, b] ∧ xs0.length = n := by
  have h1 : (xs.drop n).length = 2 := by
    simp [List.length_drop, h]
  obtain ⟨a, b, hab⟩ := List.length_eq_two.mp h1
  refine ⟨xs.take n, a, b, ?_, ?_⟩
  · rw [← hab, List.take_append_drop]
  · simp [List.length_take, h]

/-- Piecewise-linear evaluation at or beyond the first sampled abscissa
stays inside any interval around zero containing all sampled values,
provided the list ends in two equal values: the final segment is flat,
so upper extrapolation cannot escape the interval. -/
theorem piecewiseLinear_bound_flat (lo hi : ℚ) (hlo : lo ≤ 0) (hhi : 0 ≤ hi) :
    ∀ (ps : List (ℚ × ℚ)) (x : ℚ),
      (∀ p ∈ ps, lo ≤ p.2 ∧ p.2 ≤ hi) →
      (ps ≠ [] → (ps.headD (0, 0)).1 ≤ x) →
      (∃ ps0 a b y, ps = ps0 ++ [(a, y), (b, y)]) →
      lo ≤ piecewiseLinear ps x ∧ piecewiseLinear ps x ≤ hi
  | [], x, hmem, hx, hflat => by
    simpa [piecewiseLinear] using ⟨hlo, hhi⟩
  | [(x0, y0)], x, hmem, hx, hflat => by
    simpa [piecewiseLinear] using hmem (x0, y0) (by simp)
  | [(x0, y0), (x1, y1)], x, hmem, hx, hflat => by
    have hm0 := hmem (x0, y0) (by simp)
    have hm1 := hmem (x1, y1) (by simp)
    have hx0 : x0 ≤ x := by simpa [List.headD] using hx (by simp)
    obtain ⟨ps0, a, b, y, hps⟩ := hflat
    have hps0 : ps0 = [] := by
      have hl := congrArg List.length hps
      simp only [List.length_cons, List.length_append, List.length_nil] at hl
      exact List.length_eq_zero.mp (by omega)
    rw [hps0] at hps
    simp only [List.nil_append, List.cons.injEq, Prod.mk.injEq] at hps
    obtain ⟨⟨_, hy0⟩, ⟨_, hy1⟩, _⟩ := hps
    rcases le_or_lt x x1 with hle | hgt
    · simp only [piecewiseLinear]
      exact segEval_bound x0 y0 x1 y1 x lo hi hm0.1 hm0.2 hm1.1 hm1.2 hx0 hle
    · have hflatval : segEval x0 y0 x1 y1 x = y0 := by
        unfold segEval
        rw [hy0, hy1, sub_self, zero_div, zero_mul, add_zero]
      simp only [piecewiseLinear]
      rw [hflatval]
      exact hm0
  | (x0, y0) :: (x1, y1) :: p :: ps, x, hmem, hx, hflat => by
    have hx0 : x0 ≤ x := by simpa [List.headD] using hx (by simp)
    rw [piecewiseLinear]
    split
    · next hle =>
      have hm0 := hmem (x0, y0) (by simp)
      have hm1 := hmem (x1, y1) (by simp)
      exact segEval_bound x0 y0 x1 y1 x lo hi hm0.1 hm0.2 hm1.1 hm1.2 hx0 hle
    · next hgt =>
      refine piecewiseLinear_bound_flat lo hi hlo hhi ((x1, y1) :: p :: ps) x
        (fun q hq => hmem q (by simp [hq]))
        (fun _ => by simpa using le_of_not_le hgt) ?_
      obtain ⟨ps0, a, b, y, hps⟩ := hflat
      cases ps0 with
      | nil =>
        have hl := congrArg List.length hps
        simp at hl
      | cons q ps0t =>
        simp only [List.cons_append, List.cons.injEq] at hps
        exact ⟨ps0t, a, b, y, hps.2⟩

/-- Over a grid headed by zero with equal-length duplicated share
values inside the unit interval, piecewise-linear evaluation at any
non-negative argument stays in the unit interval: inside the sampled
range by convexity, beyond it because the duplicated tail makes the last
segment flat. -/
theorem shareFuncAdj_disc_range (xsT : List ℚ) (sn : List ℚ) (m : ℚ)
    (hsn : ∀ s ∈ sn, 0 ≤ s ∧ s ≤ 1) (hm : 0 ≤ m)
    (hlen : sn ≠ [] →
      (0 :: xsT).length = (sn.flatMap (fun s => [s, s])).length) :
    0 ≤ piecewiseLinear ((0 :: xsT).zip (sn.flatMap (fun s => [s, s]))) m
    ∧ piecewiseLinear ((0 :: xsT).zip (sn.flatMap (fun s => [s, s]))) m ≤ 1 := by
  cases hc : sn with
  | nil =>
    subst hc
    simp [piecewiseLinear]
  | cons s0 sn2 =>
    subst hc
    obtain ⟨l0, s, hdup⟩ := flatMap_dup_decomp (s0 :: sn2) (by simp)
    have hys : ((s0 :: sn2).flatMap (fun s => [s, s])).length
        = l0.length + 2 := by
      rw [hdup]
      simp
    have hxslen : (0 :: xsT).length = l0.length + 2 := by
      rw [hlen (by simp), hys]
    obtain ⟨xs0, xa, xb, hxsplit, hxs0len⟩ :=
      exists_split_last_two (0 :: xsT) l0.length hxslen
    refine piecewiseLinear_bound_flat 0 1 (le_refl 0) zero_le_one _ m
      ?_ ?_ ?_
    · intro p hp
      obtain ⟨a, b⟩ := p
      have hb := (List.of_mem_zip hp).2
      obtain ⟨s2, hs2, hb2⟩ := List.mem_flatMap.mp hb
      have hbs : b = s2 := by
        rcases List.mem_cons.mp hb2 with rfl | h3
        · rfl
        · simpa using h3
      rw [hbs]
      exact hsn s2 hs2
    · intro _
      have hys2 : (s0 :: sn2).flatMap (fun s => [s, s])
          = s0 :: s0 :: sn2.flatMap (fun s => [s, s]) := by
        simp [List.flatMap_cons]
      rw [hys2, List.zip_cons_cons]
      simpa using hm
    · refine ⟨xs0.zip l0, xa, xb, s, ?_⟩
      rw [hdup, hxsplit, List.zip_append hxs0len]
      rfl

/-- The assembled discrete-branch adjustable share function evaluates
inside the unit interval at every non-negative resource level, when the
chosen shares lie in the unit interval and shares and consumptions match
the asset-grid length: within the comb grid by convexity, above it
because the duplicated final share makes the last segment flat. -/
theorem assembled_ShareFuncAdj_disc_range (kit : UtilKit) (decay : ℚ → ℚ)
    (pr : PathResult) (SG : List ℚ) (crra : ℚ) (vb : Bool) (ap SL : ℚ)
    (aX sn cn : List ℚ) (m : ℚ)
    (hsn : ∀ s ∈ sn, 0 ≤ s ∧ s ≤ 1) (hm : 0 ≤ m)
    (hsnlen : sn.length = pr.aNrmGrid.length)
    (hcnlen : cn.length = pr.aNrmGrid.length) :
    0 ≤ Fun1.eval kit decay
        (assembleSolution kit decay pr SG crra vb ap true SL aX sn
          cn).ShareFuncAdj m
    ∧ Fun1.eval kit decay
        (assembleSolution kit decay pr SG crra vb ap true SL aX sn
          cn).ShareFuncAdj m ≤ 1 := by
  rw [assembleSolution_ShareFuncAdj_disc, Fun1.eval_LinearInterp_none]
  refine shareFuncAdj_disc_range _ sn m hsn hm ?_
  intro hne
  have hN1 : 1 ≤ pr.aNrmGrid.length := by
    rcases Nat.eq_zero_or_pos pr.aNrmGrid.length with h0 | h1
    · rw [h0] at hsnlen
      exact absurd (List.length_eq_zero.mp hsnlen) hne
    · exact h1
  rw [flatMap_dup_length, hsnlen]
  simp only [List.length_cons, List.length_append, flatMap_pair_length,
    List.length_zip, List.length_map, List.length_zipWith, List.length_tail,
    List.length_nil, hcnlen]
  omega

/-- On either distribution path with the value function requested, the
marginal-value and value tables have one row per asset gridpoint. -/
theorem path_lengths (kit : UtilKit) (next : NextSol) (sd : JointDstn)
    (idn : IncDstn) (rd : RiskyD) (lp df rf pgf : ℚ) (aX SG : List ℚ)
    (ap : ℚ) (ib : Bool) :
    (if ib then indepPath kit next idn rd lp df rf pgf aX SG true ap
      else jointPath kit next sd lp df rf pgf aX SG true
        ap).EndOfPrddvdaNvrs.length
      = (if ib then indepPath kit next idn rd lp df rf pgf aX SG true ap
        else jointPath kit next sd lp df rf pgf aX SG true ap).aNrmGrid.length
    ∧ (if ib then indepPath kit next idn rd lp df rf pgf aX SG true ap
        else jointPath kit next sd lp df rf pgf aX SG true
          ap).EndOfPrdv.length
      = (if ib then indepPath kit next idn rd lp df rf pgf aX SG true ap
        else jointPath kit next sd lp df rf pgf aX SG true
          ap).aNrmGrid.length := by
  cases ib with
  | false =>
    rw [if_neg (by simp)]
    constructor
    · rw [jointPath_Nvrs, List.length_map]
      obtain ⟨f, hf⟩ := jointPath_dvda_shape kit next sd lp df rf pgf aX SG
        true ap
      rw [hf, List.length_map]
    · obtain ⟨f, hf⟩ := jointPath_v_shape kit next sd lp df rf pgf aX SG ap
      rw [hf, List.length_map]
  | true =>
    rw [if_pos rfl]
    constructor
    · rw [indepPath_Nvrs, List.length_map]
      obtain ⟨f, hf⟩ := indepPath_dvda_shape kit next idn rd lp df rf pgf aX
        SG true ap
      rw [hf, List.length_map]
    · obtain ⟨f, hf⟩ := indepPath_v_shape kit next idn rd lp df rf pgf aX SG
        ap
      rw [hf, List.length_map]

/-- When the value and inverse-marginal-value tables both have one row
per asset gridpoint, so do the discrete-share choice lists. -/
theorem discreteShares_lengths_of (zb : Bool) (SG : List ℚ)
    (V Nvrs : List (List ℚ)) (n : Nat) (hV : V.length = n)
    (hN : Nvrs.length = n) :
    (discreteShares zb SG V Nvrs).1.length = n
    ∧ (discreteShares zb SG V Nvrs).2.length = n := by
  refine ⟨(discreteShares_lengths zb SG V Nvrs).1.trans hV, ?_⟩
  rw [(discreteShares_lengths zb SG V Nvrs).2, hV, hN, Nat.min_self]

/-! ### Claims -/

/-- C2: solveConsPortfolio raises a fatal configuration error, before any
grid or expectation computation and without returning a partial record,
exactly when the artificial borrowing constraint is not exactly zero or
discrete-share optimization is requested without value-function
construction; no other parameter values produce a configuration error. -/
theorem claim_C2 (kit : UtilKit) (decay : ℚ → ℚ) (next : NextSol)
    (sd : JointDstn) (idn : IncDstn) (rd : RiskyD)
    (LivPrb DiscFac CRRA Rfree PermGroFac BoroCnstArt : ℚ)
    (aXtraGrid ShareGrid : List ℚ) (vFuncBool : Bool) (AdjustPrb : ℚ)
    (DiscreteShareBool : Bool) (ShareLimit : ℚ) (IndepDstnBool : Bool) :
    isConfigError (solveConsPortfolio kit decay next sd idn rd LivPrb DiscFac
      CRRA Rfree PermGroFac BoroCnstArt aXtraGrid ShareGrid vFuncBool
      AdjustPrb DiscreteShareBool ShareLimit IndepDstnBool) = true ↔
    (BoroCnstArt ≠ 0 ∨ (DiscreteShareBool = true ∧ vFuncBool = false)) := by
  unfold solveConsPortfolio
  split
  · next h => simp only [isConfigError, true_iff]; exact Or.inl h
  · next h =>
    split
    · next h2 => simp only [isConfigError, true_iff]; exact Or.inr h2
    · next h2 =>
      simp only [isConfigError_shareFork, Bool.false_eq_true, false_iff]
      rintro (hb | hd)
      · exact h hb
      · exact h2 hd

/-- C3: at AdjustPrb equal to 1, each of the six next-period blend
computations of the solver, on both the independent path (dvdb_dist,
dvds_dist, v_intermed_dist) and the joint path (dvdm, dvds and v blends),
equals the probability-weighted mixture AdjustPrb times the Adj value plus
1 - AdjustPrb times the Fxd value, evaluated at AdjustPrb = 1; the fast
path that skips the Fxd evaluation loses nothing. -/
theorem claim_C3 (kit : UtilKit) (next : NextSol)
    (PermGroFac b s m : ℚ) (shocks : ℚ × ℚ) :
    dvdb_dist kit next PermGroFac 1 shocks b s =
      kit.powNegCRRA (shocks.1 * PermGroFac) *
        specMixture 1 (next.vPfuncAdj (m_nrm_next PermGroFac shocks b))
          (next.dvdmFuncFxd (m_nrm_next PermGroFac shocks b) s)
    ∧ dvds_dist kit next PermGroFac 1 shocks b s =
      kit.pow1mCRRA (shocks.1 * PermGroFac) *
        specMixture 1 0
          (next.dvdsFuncFxd (m_nrm_next PermGroFac shocks b) s)
    ∧ v_intermed_dist kit next PermGroFac 1 shocks b s =
      kit.pow1mCRRA (shocks.1 * PermGroFac) *
        specMixture 1 (next.vFuncAdj (m_nrm_next PermGroFac shocks b))
          (next.vFuncFxd (m_nrm_next PermGroFac shocks b) s)
    ∧ dvdm_next_joint next 1 m s =
      specMixture 1 (next.vPfuncAdj m) (next.dvdmFuncFxd m s)
    ∧ dvds_next_joint next 1 m s =
      specMixture 1 0 (next.dvdsFuncFxd m s)
    ∧ v_next_joint next 1 m s =
      specMixture 1 (next.vFuncAdj m) (next.vFuncFxd m s) := by
  refine ⟨?_, ?_, ?_, ?_, ?_, ?_⟩ <;>
    simp [dvdb_dist, dvds_dist, v_intermed_dist, dvdm_next_joint,
      dvds_next_joint, v_next_joint, specMixture]

/-- C7: the terminal-period record consumes all market resources,
cFuncAdj of m equals m for every non-negative m, and holds no risky
share, ShareFuncAdj identically zero. -/
theorem claim_C7 (kit : UtilKit) (decay : ℚ → ℚ) (CRRA m m2 : ℚ)
    (_hm : 0 ≤ m) :
    Fun1.eval kit decay (update_solution_terminal CRRA).cFuncAdj m = m ∧
    Fun1.eval kit decay (update_solution_terminal CRRA).ShareFuncAdj m2 = 0 := by
  constructor <;> rfl

/-- Witness for C7 at CRRA 1, m = 5, m2 = 7. -/
theorem claim_C7_witness :
    Fun1.eval kit1 decay0 (update_solution_terminal 1).cFuncAdj 5 = 5 ∧
    Fun1.eval kit1 decay0 (update_solution_terminal 1).ShareFuncAdj 7 = 0 :=
  claim_C7 kit1 decay0 1 5 7 (by norm_num)

/-- C9: every constructed PortfolioSolution carries all nine function
slots, each equal to the given argument with the NullFunc sentinel
substituted for a missing or None input; in particular a solve call with
vFuncBool False returns a record whose vFuncAdj and vFuncFxd are the
NullFunc markers rather than absent fields. -/
theorem claim_C9 (o1 o2 o3 o4 : Option Fun1) (p1 p2 p3 p4 p5 : Option Fun2)
    (g1 g2 g3 g4 : Option (List ℚ)) (g5 : Option (List (List ℚ)))
    (apo : Option ℚ) (kit : UtilKit) (decay : ℚ → ℚ) (next : NextSol)
    (sd : JointDstn) (idn : IncDstn) (rd : RiskyD)
    (LivPrb DiscFac CRRA Rfree PermGroFac BoroCnstArt : ℚ)
    (aXtraGrid ShareGrid : List ℚ) (AdjustPrb : ℚ)
    (DiscreteShareBool : Bool) (ShareLimit : ℚ) (IndepDstnBool : Bool)
    (sol : PortfolioSolution)
    (h : solveConsPortfolio kit decay next sd idn rd LivPrb DiscFac CRRA Rfree
      PermGroFac BoroCnstArt aXtraGrid ShareGrid false AdjustPrb
      DiscreteShareBool ShareLimit IndepDstnBool = Except.ok sol) :
    ((PortfolioSolution.init o1 o2 o3 o4 p1 p2 p3 p4 p5 g1 g2 g3 g4 g5
        apo).cFuncAdj = orNull1 o1
      ∧ (PortfolioSolution.init o1 o2 o3 o4 p1 p2 p3 p4 p5 g1 g2 g3 g4 g5
        apo).ShareFuncAdj = orNull1 o2
      ∧ (PortfolioSolution.init o1 o2 o3 o4 p1 p2 p3 p4 p5 g1 g2 g3 g4 g5
        apo).vFuncAdj = orNull1 o3
      ∧ (PortfolioSolution.init o1 o2 o3 o4 p1 p2 p3 p4 p5 g1 g2 g3 g4 g5
        apo).vPfuncAdj = orNull1 o4
      ∧ (PortfolioSolution.init o1 o2 o3 o4 p1 p2 p3 p4 p5 g1 g2 g3 g4 g5
        apo).cFuncFxd = orNull2 p1
      ∧ (PortfolioSolution.init o1 o2 o3 o4 p1 p2 p3 p4 p5 g1 g2 g3 g4 g5
        apo).ShareFuncFxd = orNull2 p2
      ∧ (PortfolioSolution.init o1 o2 o3 o4 p1 p2 p3 p4 p5 g1 g2 g3 g4 g5
        apo).vFuncFxd = orNull2 p3
      ∧ (PortfolioSolution.init o1 o2 o3 o4 p1 p2 p3 p4 p5 g1 g2 g3 g4 g5
        apo).dvdmFuncFxd = orNull2 p4
      ∧ (PortfolioSolution.init o1 o2 o3 o4 p1 p2 p3 p4 p5 g1 g2 g3 g4 g5
        apo).dvdsFuncFxd = orNull2 p5)
    ∧ (orNull1 none = Fun1.NullFunc ∧ orNull2 none = Fun2.NullFunc)
    ∧ (∀ f1, orNull1 (some f1) = f1) ∧ (∀ f2, orNull2 (some f2) = f2)
    ∧ (sol.vFuncAdj = Fun1.NullFunc ∧ sol.vFuncFxd = Fun2.NullFunc) := by
  refine ⟨⟨rfl, rfl, rfl, rfl, rfl, rfl, rfl, rfl, rfl⟩, ⟨rfl, rfl⟩,
    fun _ => rfl, fun _ => rfl, ?_⟩
  have h2 := solve_ok kit decay next sd idn rd LivPrb DiscFac CRRA Rfree
    PermGroFac BoroCnstArt aXtraGrid ShareGrid false AdjustPrb
    DiscreteShareBool ShareLimit IndepDstnBool sol h
  rcases shareFork_ok _ _ _ _ _ _ _ _ _ _ _ h2 with ⟨_, rfl⟩ | ⟨_, _, _, _, rfl⟩ <;>
    exact ⟨rfl, rfl⟩

/-- Witness for C9: a concrete initializer call and the concrete solve
call solveC8, made with vFuncBool False, whose record carries NullFunc
value slots. -/
theorem claim_C9_witness :
    ((PortfolioSolution.init none none none none none none none none none
        none none none none none none).cFuncAdj = orNull1 none
      ∧ (PortfolioSolution.init none none none none none none none none none
        none none none none none none).ShareFuncAdj = orNull1 none
      ∧ (PortfolioSolution.init none none none none none none none none none
        none none none none none none).vFuncAdj = orNull1 none
      ∧ (PortfolioSolution.init none none none none none none none none none
        none none none none none none).vPfuncAdj = orNull1 none
      ∧ (PortfolioSolution.init none none none none none none none none none
        none none none none none none).cFuncFxd = orNull2 none
      ∧ (PortfolioSolution.init none none none none none none none none none
        none none none none none none).ShareFuncFxd = orNull2 none
      ∧ (PortfolioSolution.init none none none none none none none none none
        none none none none none none).vFuncFxd = orNull2 none
      ∧ (PortfolioSolution.init none none none none none none none none none
        none none none none none none).dvdmFuncFxd = orNull2 none
      ∧ (PortfolioSolution.init none none none none none none none none none
        none none none none none none).dvdsFuncFxd = orNull2 none)
    ∧ (orNull1 none = Fun1.NullFunc ∧ orNull2 none = Fun2.NullFunc)
    ∧ (∀ f1, orNull1 (some f1) = f1) ∧ (∀ f2, orNull2 (some f2) = f2)
    ∧ (solC8.vFuncAdj = Fun1.NullFunc ∧ solC8.vFuncFxd = Fun2.NullFunc) :=
  claim_C9 none none none none none none none none none none none none none
    none none kit1 decay0 nextC8 jointD1 incD1 riskyD1 1 1 1 1 1 0 [1, 2]
    [0, 1] 1 false (1 / 2) false solC8 solveC8_ok

/-- C10: every record returned by solveConsPortfolio, and the
terminal-period record, has a fixed-regime share function that is the
identity in its share argument, ShareFuncFxd of (m, s) equal to s. -/
theorem claim_C10 (kit : UtilKit) (decay : ℚ → ℚ) (next : NextSol)
    (sd : JointDstn) (idn : IncDstn) (rd : RiskyD)
    (LivPrb DiscFac CRRA Rfree PermGroFac BoroCnstArt : ℚ)
    (aXtraGrid ShareGrid : List ℚ) (vFuncBool : Bool) (AdjustPrb : ℚ)
    (DiscreteShareBool : Bool) (ShareLimit : ℚ) (IndepDstnBool : Bool)
    (sol : PortfolioSolution) (m s ρ : ℚ)
    (h : solveConsPortfolio kit decay next sd idn rd LivPrb DiscFac CRRA Rfree
      PermGroFac BoroCnstArt aXtraGrid ShareGrid vFuncBool AdjustPrb
      DiscreteShareBool ShareLimit IndepDstnBool = Except.ok sol) :
    sol.ShareFuncFxd = Fun2.IdentityFunction 1
    ∧ Fun2.eval kit decay sol.ShareFuncFxd m s = s
    ∧ (update_solution_terminal ρ).ShareFuncFxd = Fun2.IdentityFunction 1
    ∧ Fun2.eval kit decay (update_solution_terminal ρ).ShareFuncFxd m s = s := by
  have h2 := solve_ok kit decay next sd idn rd LivPrb DiscFac CRRA Rfree
    PermGroFac BoroCnstArt aXtraGrid ShareGrid vFuncBool AdjustPrb
    DiscreteShareBool ShareLimit IndepDstnBool sol h
  rcases shareFork_ok _ _ _ _ _ _ _ _ _ _ _ h2 with ⟨_, rfl⟩ | ⟨_, _, _, _, rfl⟩ <;>
    exact ⟨rfl, by simp [Fun2.eval], rfl, by simp [Fun2.eval]⟩

/-- Witness for C10 at the concrete solve call solveC8, with resources 4
and share one third. -/
theorem claim_C10_witness :
    solC8.ShareFuncFxd = Fun2.IdentityFunction 1
    ∧ Fun2.eval kit1 decay0 solC8.ShareFuncFxd 4 (1 / 3) = 1 / 3
    ∧ (update_solution_terminal 2).ShareFuncFxd = Fun2.IdentityFunction 1
    ∧ Fun2.eval kit1 decay0 (update_solution_terminal 2).ShareFuncFxd 4 (1 / 3)
        = 1 / 3 :=
  claim_C10 kit1 decay0 nextC8 jointD1 incD1 riskyD1 1 1 1 1 1 0 [1, 2]
    [0, 1] false 1 false (1 / 2) false solC8 4 (1 / 3) 2 solveC8_ok

/-- Counterexample to C1 as stated: on the independent path with
transitory shocks [0], whose minimum is zero, and a two-atom risky
distribution (returns 1 and 3, so the bank-balance knots 1, 3, 6 are
strictly increasing and every first-order-condition row is the strictly
positive [a, a]), the source completes the run with finite numbers and
returns the asset grid [1, 2] unchanged with both shares clipped to 1:
the grid contains no exact-zero point at the front or anywhere,
contradicting the claim that an exact-zero point is inserted exactly
when the minimum transitory shock is zero. -/
theorem claim_C1_counterexample :
    listMin incD1.TranShk = 0
    ∧ (solutionOf solveC1).bind (fun s => s.aGrid) = some [1, 2]
    ∧ (solutionOf solveC1).bind (fun s => s.Share_adj) = some [1, 1]
    ∧ (0 : ℚ) ∉ ([1, 2] : List ℚ) := by
  refine ⟨by with_unfolding_all rfl, by with_unfolding_all rfl,
    by with_unfolding_all rfl, by norm_num⟩

/-- C1 as amended: the solver inserts the exact-zero asset point, on both
the independent and joint paths, exactly when the minimum transitory
shock is NONZERO, and at that inserted zero-asset gridpoint the
continuous-share policy forces the risky share to 1; when the minimum
transitory shock is zero the asset grid is passed through unchanged. -/
theorem claim_C1 (TranShks aXtraGrid : List ℚ) :
    (listMin TranShks ≠ 0 →
      aNrmGrid_indep (zero_bound_of TranShks) aXtraGrid = 0 :: aXtraGrid
      ∧ aNrmGrid_joint (zero_bound_of TranShks) aXtraGrid = 0 :: aXtraGrid
      ∧ ∀ SG foc nvrs,
          (contShareRow (zero_bound_of TranShks) 0 SG foc nvrs).map Prod.fst
            = some 1)
    ∧ (listMin TranShks = 0 →
      aNrmGrid_indep (zero_bound_of TranShks) aXtraGrid = aXtraGrid
      ∧ aNrmGrid_joint (zero_bound_of TranShks) aXtraGrid = aXtraGrid) := by
  constructor
  · intro h
    have hz : zero_bound_of TranShks = false := by
      simp [zero_bound_of, h]
    refine ⟨by simp [aNrmGrid_indep, hz], by simp [aNrmGrid_joint, hz], ?_⟩
    intro SG foc nvrs
    simp only [contShareRow, hz]
    split
    · split <;> rfl
    · next hc => exact absurd (Or.inr (by simp)) hc
  · intro h
    have hz : zero_bound_of TranShks = true := by
      simp [zero_bound_of, h]
    exact ⟨by simp [aNrmGrid_indep, hz], by simp [aNrmGrid_joint, hz]⟩

/-- Witness for C1 as amended, at transitory shocks [1] (minimum nonzero)
and [0] (minimum zero) over the asset grid [1, 2]. -/
theorem claim_C1_witness :
    (aNrmGrid_indep (zero_bound_of [1]) [1, 2] = [0, 1, 2]
     ∧ aNrmGrid_joint (zero_bound_of [1]) [1, 2] = [0, 1, 2]
     ∧ (contShareRow (zero_bound_of [1]) 0 [0, 1] [-1, -1] [5, 6]).map Prod.fst
         = some 1)
    ∧ (aNrmGrid_indep (zero_bound_of [0]) [1, 2] = [1, 2]
     ∧ aNrmGrid_joint (zero_bound_of [0]) [1, 2] = [1, 2]) := by
  constructor
  · have h := (claim_C1 [1] [1, 2]).1 (by norm_num [listMin])
    exact ⟨h.1, h.2.1, h.2.2 [0, 1] [-1, -1] [5, 6]⟩
  · exact (claim_C1 [0] [1, 2]).2 (by norm_num [listMin])

/-- Counterexample to C4 as stated: in the concrete solve call solveC4
the share first-order condition is strictly negative across the whole
share grid at the zero-asset gridpoint (the first row of the tabulated
EndOfPrddvds), yet the recorded optimal share there is 1, not the claimed
clip to 0: the zero-asset forcing overrides the all-negative clip. -/
theorem claim_C4_counterexample :
    EndOfPrddvds_joint kit1 nextC4 jointD1 1 1 1 1 (1 / 2)
        (aNrmGrid_joint (zero_bound_of jointD1.TranShks) [1]) [0, 1]
      = [[-(1 / 2), -(1 / 2)], [1 / 2, 1 / 2]]
    ∧ (∀ x ∈ [-(1 / 2 : ℚ), -(1 / 2)], x < 0)
    ∧ (solutionOf solveC4).bind (fun s => s.aGrid) = some [0, 1]
    ∧ (solutionOf solveC4).bind (fun s => s.Share_adj) = some [1, 1]
    ∧ (1 : ℚ) ≠ 0 := by
  refine ⟨by with_unfolding_all rfl, ?_, by with_unfolding_all rfl,
    by with_unfolding_all rfl, by norm_num⟩
  intro x hx
  fin_cases hx <;> norm_num

/-- C4 as amended: at every asset gridpoint, a share first-order
condition that is strictly positive across the whole share grid yields
the clipped share 1, and one that is strictly negative across the whole
grid yields the clipped share 0 except at the inserted zero-asset
gridpoint (index 0 when the natural borrowing constraint is away from
zero), where the share is forced to 1 instead; in all these degenerate
cases the row computation returns a value and no error. -/
theorem claim_C4 (zb : Bool) (j : Nat) (SG foc nvrs : List ℚ)
    (hne : foc ≠ []) :
    ((∀ f ∈ foc, 0 < f) →
      contShareRow zb j SG foc nvrs = some (1, nvrs.getLastD 0))
    ∧ ((∀ f ∈ foc, f < 0) → (zb = true ∨ j ≠ 0) →
      contShareRow zb j SG foc nvrs = some (0, nvrs.headD 0)) := by
  constructor
  · intro hpos
    have hlast : foc.getLastD 0 > 0 :=
      hpos _ (getLastD_mem_of_ne_nil foc 0 hne)
    have hhead : ¬ foc.headD 0 < 0 :=
      not_lt.2 (le_of_lt (hpos _ (headD_mem_of_ne_nil foc 0 hne)))
    simp only [contShareRow]
    rw [if_pos (Or.inl hlast), if_neg hhead]
  · intro hneg hzj
    have hlast : ¬ foc.getLastD 0 > 0 :=
      not_lt.2 (le_of_lt (hneg _ (getLastD_mem_of_ne_nil foc 0 hne)))
    have hhead : foc.headD 0 < 0 :=
      hneg _ (headD_mem_of_ne_nil foc 0 hne)
    have hforce : ¬ (zb = false ∧ j = 0) := by
      rintro ⟨h1, h2⟩
      rcases hzj with h3 | h3
      · rw [h3] at h1; cases h1
      · exact h3 h2
    simp only [contShareRow]
    rw [if_neg (not_or.mpr ⟨hlast, hforce⟩), if_pos hhead]

/-- Witness for C4 as amended, at an interior gridpoint with an
all-positive and an all-negative first-order-condition row. -/
theorem claim_C4_witness :
    contShareRow true 1 [0, 1] [2, 1] [5, 6] = some (1, 6)
    ∧ contShareRow true 1 [0, 1] [-1, -2] [5, 6] = some (0, 5) := by
  constructor
  · have h := (claim_C4 true 1 [0, 1] [2, 1] [5, 6] (by simp)).1
      (by intro f hf; fin_cases hf <;> norm_num)
    simpa using h
  · have h := (claim_C4 true 1 [0, 1] [-1, -2] [5, 6] (by simp)).2
      (by intro f hf; fin_cases hf <;> norm_num)
      (Or.inl rfl)
    simpa using h

/-- Counterexample to C5 as stated: at the valid degenerate input whose
risky return identically equals the risk-free return with AdjustPrb 1
(solveC5x), the share first-order condition is exactly [0, 0] at the
only asset gridpoint, the row is neither top- nor bottom-constrained and
its crossing bracket is the degenerate exact pair (0, 0); the source
then computes alpha = 1.0 - 0.0/0.0 = nan at line 813 and tabulates a
nan share, which is not a value lying between the bracket shares — the
embedding surfaces the run as the explicit nan outcome rather than a
clean record. -/
theorem claim_C5_counterexample :
    EndOfPrddvds_joint kit1 nextT jointD5 1 1 1 1 1
        (aNrmGrid_joint (zero_bound_of jointD5.TranShks) [1]) [0, 1]
      = [[0, 0]]
    ∧ ¬ (([0, 0] : List ℚ).getLastD 0 > 0)
    ∧ ¬ (([0, 0] : List ℚ).headD 0 < 0)
    ∧ crossingIdx [0, 0] = some 0
    ∧ rowNanDegenerate (zero_bound_of jointD5.TranShks) 0 [0, 0] = true
    ∧ solveC5x = Except.error SolveErr.nan := by
  refine ⟨by with_unfolding_all rfl, by norm_num [List.getLastD],
    by norm_num [List.headD], by with_unfolding_all rfl,
    by with_unfolding_all rfl, by with_unfolding_all rfl⟩

/-- C5 as amended: at every asset gridpoint that is neither
top-constrained (last first-order-condition value positive) nor
bottom-constrained (first value negative), and that is not the forced
zero-asset point, the crossing search finds an adjacent bracket with FOC
at the lower share at least 0 and FOC at the upper share at most 0 — for
such a row the indexing cannot fail — and, provided the bracket is not
the degenerate exact pair (0, 0) whose float interpolation weight is nan
in the source (the case the counterexample exhibits), the bracket
denominator is nonzero and the returned share is the regula-falsi
interpolation inside that bracket, hence lies between the two bracket
shares of the sorted share grid. -/
theorem claim_C5 (zb : Bool) (j : Nat) (SG foc nvrs : List ℚ)
    (hlen2 : 2 ≤ foc.length) (hlen : foc.length = SG.length)
    (htop : ¬ foc.getLastD 0 > 0) (hbot : ¬ foc.headD 0 < 0)
    (hj : zb = true ∨ j ≠ 0) (hSG : List.Chain' (· ≤ ·) SG)
    (hnd : rowNanDegenerate zb j foc = false) :
    ∃ idx sh c,
      crossingIdx foc = some idx
      ∧ idx + 1 < foc.length
      ∧ 0 ≤ foc.getD idx 0 ∧ foc.getD (idx + 1) 0 ≤ 0
      ∧ foc.getD (idx + 1) 0 - foc.getD idx 0 ≠ 0
      ∧ contShareRow zb j SG foc nvrs = some (sh, c)
      ∧ sh = (1 - (1 - foc.getD (idx + 1) 0 /
            (foc.getD (idx + 1) 0 - foc.getD idx 0))) * SG.getD idx 0
          + (1 - foc.getD (idx + 1) 0 /
            (foc.getD (idx + 1) 0 - foc.getD idx 0)) * SG.getD (idx + 1) 0
      ∧ SG.getD idx 0 ≤ sh ∧ sh ≤ SG.getD (idx + 1) 0 := by
  have hsome := crossingIdx_isSome foc hlen2 (le_of_not_lt hbot)
    (le_of_not_lt htop)
  obtain ⟨idx, hidx⟩ := Option.isSome_iff_exists.mp hsome
  obtain ⟨hlt, hb, ht⟩ := crossingIdx_spec foc idx hidx
  have hforce : ¬ (zb = false ∧ j = 0) := by
    rintro ⟨h1, h2⟩
    rcases hj with h3 | h3
    · rw [h3] at h1; cases h1
    · exact h3 h2
  have hrow : contShareRow zb j SG foc nvrs =
      some ((1 - (1 - foc.getD (idx + 1) 0 /
          (foc.getD (idx + 1) 0 - foc.getD idx 0))) * SG.getD idx 0
        + (1 - foc.getD (idx + 1) 0 /
          (foc.getD (idx + 1) 0 - foc.getD idx 0)) * SG.getD (idx + 1) 0,
        (1 - (1 - foc.getD (idx + 1) 0 /
          (foc.getD (idx + 1) 0 - foc.getD idx 0))) * nvrs.getD idx 0
        + (1 - foc.getD (idx + 1) 0 /
          (foc.getD (idx + 1) 0 - foc.getD idx 0)) * nvrs.getD (idx + 1) 0) := by
    simp only [contShareRow]
    rw [if_neg (not_or.mpr ⟨htop, hforce⟩), if_neg hbot, hidx]
  have hne : foc.getD (idx + 1) 0 - foc.getD idx 0 ≠ 0 := by
    intro hzero
    have hdeg : rowNanDegenerate zb j foc = true := by
      unfold rowNanDegenerate
      rw [if_neg (not_or.mpr ⟨htop, hforce⟩), if_neg hbot, hidx]
      simpa using hzero
    rw [hdeg] at hnd
    cases hnd
  obtain ⟨ha0, ha1⟩ := alpha_mem (foc.getD idx 0) (foc.getD (idx + 1) 0) hb ht
  have hgrid : SG.getD idx 0 ≤ SG.getD (idx + 1) 0 :=
    chain_getD_le SG hSG idx (hlen ▸ hlt)
  obtain ⟨hc1, hc2⟩ := combo_between _ (SG.getD idx 0) (SG.getD (idx + 1) 0)
    ha0 ha1 hgrid
  exact ⟨idx, _, _, hidx, hlt, hb, ht, hne, hrow, rfl, hc1, hc2⟩

/-- Witness for C5 at the two-point share grid [0, 1] with
first-order-condition row [1, -1]: the bracket is (0, 1), its
denominator is -2, and the interpolated share is interior. -/
theorem claim_C5_witness :
    ∃ idx sh c,
      crossingIdx [1, -1] = some idx
      ∧ idx + 1 < ([1, -1] : List ℚ).length
      ∧ 0 ≤ ([1, -1] : List ℚ).getD idx 0
      ∧ ([1, -1] : List ℚ).getD (idx + 1) 0 ≤ 0
      ∧ ([1, -1] : List ℚ).getD (idx + 1) 0 - ([1, -1] : List ℚ).getD idx 0 ≠ 0
      ∧ contShareRow true 0 [0, 1] [1, -1] [10, 20] = some (sh, c)
      ∧ sh = (1 - (1 - ([1, -1] : List ℚ).getD (idx + 1) 0 /
            (([1, -1] : List ℚ).getD (idx + 1) 0
              - ([1, -1] : List ℚ).getD idx 0))) * ([0, 1] : List ℚ).getD idx 0
          + (1 - ([1, -1] : List ℚ).getD (idx + 1) 0 /
            (([1, -1] : List ℚ).getD (idx + 1) 0
              - ([1, -1] : List ℚ).getD idx 0)) * ([0, 1] : List ℚ).getD (idx + 1) 0
      ∧ ([0, 1] : List ℚ).getD idx 0 ≤ sh
      ∧ sh ≤ ([0, 1] : List ℚ).getD (idx + 1) 0 :=
  claim_C5 true 0 [0, 1] [1, -1] [10, 20] (by simp) (by simp)
    (by norm_num [List.getLastD_eq_getLast?])
    (by norm_num [List.headD]) (Or.inl rfl)
    (by norm_num [List.chain'_cons])
    (by with_unfolding_all rfl)

/-- C6: in the continuous-share branch the returned ShareFuncAdj is
constructed with intercept limit equal to the precomputed ShareLimit and
slope limit 0, and consequently its value tends to ShareLimit as market
resources grow without bound, for any vanishing decay shape. -/
theorem claim_C6 (kit : UtilKit) (decay : ℚ → ℚ) (next : NextSol)
    (sd : JointDstn) (idn : IncDstn) (rd : RiskyD)
    (LivPrb DiscFac CRRA Rfree PermGroFac BoroCnstArt : ℚ)
    (aXtraGrid ShareGrid : List ℚ) (vFuncBool : Bool) (AdjustPrb : ℚ)
    (ShareLimit : ℚ) (IndepDstnBool : Bool) (sol : PortfolioSolution)
    (hdec : ∀ ε : ℚ, 0 < ε → ∃ T : ℚ, ∀ t, T ≤ t → |decay t| ≤ ε)
    (h : solveConsPortfolio kit decay next sd idn rd LivPrb DiscFac CRRA Rfree
      PermGroFac BoroCnstArt aXtraGrid ShareGrid vFuncBool AdjustPrb
      false ShareLimit IndepDstnBool = Except.ok sol) :
    ∃ xs ys, sol.ShareFuncAdj = Fun1.LinearInterp xs ys (some (ShareLimit, 0))
      ∧ ∀ ε : ℚ, 0 < ε → ∃ M : ℚ, ∀ m, M ≤ m →
          |Fun1.eval kit decay sol.ShareFuncAdj m - ShareLimit| ≤ ε := by
  have h2 := solve_ok kit decay next sd idn rd LivPrb DiscFac CRRA Rfree
    PermGroFac BoroCnstArt aXtraGrid ShareGrid vFuncBool AdjustPrb
    false ShareLimit IndepDstnBool sol h
  rcases shareFork_ok _ _ _ _ _ _ _ _ _ _ _ h2 with ⟨hd, _⟩ | ⟨_, rows, hrows, _, rfl⟩
  · cases hd
  · refine ⟨_, _, assembleSolution_ShareFuncAdj_cont _ _ _ _ _ _ _ _ _ _ _, ?_⟩
    intro ε hε
    rw [assembleSolution_ShareFuncAdj_cont]
    exact linterpEvalLim_tendsto decay hdec _ _ ShareLimit ε hε

/-- Witness for C6 at the concrete solve call solveC8 with the zero decay
shape and share limit one half. -/
theorem claim_C6_witness :
    ∃ xs ys,
      solC8.ShareFuncAdj = Fun1.LinearInterp xs ys (some (1 / 2, 0))
      ∧ ∀ ε : ℚ, 0 < ε → ∃ M : ℚ, ∀ m, M ≤ m →
          |Fun1.eval kit1 decay0 solC8.ShareFuncAdj m - 1 / 2| ≤ ε :=
  claim_C6 kit1 decay0 nextC8 jointD1 incD1 riskyD1 1 1 1 1 1 0 [1, 2]
    [0, 1] false 1 (1 / 2) false solC8
    (fun ε hε => ⟨0, fun t _ => by simp [decay0]; linarith⟩)
    solveC8_ok

/-- C8 as amended: for every solve call that returns a record (with a
non-negative marginal-utility inverse, a share grid and share limit
inside the unit interval, a non-negative external asset grid and a decay
shape valued in the unit interval), the adjustable consumption function
passes through the zero-resources origin, tabulates only non-negative
values, and evaluates non-negatively over the whole sampled resource
range; the adjustable share function tabulates only values in [0, 1] and
evaluates inside [0, 1] at every non-negative resource level, in the
discrete- and continuous-share branches alike.  Monotonicity of the
consumption function is not part of this statement: the counterexample
refutes it, and with it non-negativity of the consumption value under
extrapolation past the last endogenous gridpoint. -/
theorem claim_C8 (kit : UtilKit) (decay : ℚ → ℚ) (next : NextSol)
    (sd : JointDstn) (idn : IncDstn) (rd : RiskyD)
    (LivPrb DiscFac CRRA Rfree PermGroFac BoroCnstArt : ℚ)
    (aXtraGrid ShareGrid : List ℚ) (vFuncBool : Bool) (AdjustPrb : ℚ)
    (DiscreteShareBool : Bool) (ShareLimit : ℚ) (IndepDstnBool : Bool)
    (sol : PortfolioSolution)
    (hUP : ∀ x, 0 ≤ kit.uPinv x)
    (hSG : ∀ s ∈ ShareGrid, 0 ≤ s ∧ s ≤ 1)
    (hSL0 : 0 ≤ ShareLimit) (hSL1 : ShareLimit ≤ 1)
    (hAX : ∀ a ∈ aXtraGrid, 0 ≤ a)
    (hdec : ∀ t, 0 ≤ decay t ∧ decay t ≤ 1)
    (h : solveConsPortfolio kit decay next sd idn rd LivPrb DiscFac CRRA Rfree
      PermGroFac BoroCnstArt aXtraGrid ShareGrid vFuncBool AdjustPrb
      DiscreteShareBool ShareLimit IndepDstnBool = Except.ok sol) :
    Fun1.eval kit decay sol.cFuncAdj 0 = 0
    ∧ (∃ xs ys, sol.cFuncAdj = Fun1.LinearInterp xs ys none
        ∧ (∀ y ∈ ys, 0 ≤ y)
        ∧ ∀ m, 0 ≤ m → m ≤ xs.getLastD 0 →
            0 ≤ Fun1.eval kit decay sol.cFuncAdj m)
    ∧ (∃ xs ys lim, sol.ShareFuncAdj = Fun1.LinearInterp xs ys lim
        ∧ (∀ y ∈ ys, 0 ≤ y ∧ y ≤ 1)
        ∧ ∀ m, 0 ≤ m →
            0 ≤ Fun1.eval kit decay sol.ShareFuncAdj m
            ∧ Fun1.eval kit decay sol.ShareFuncAdj m ≤ 1) := by
  have h2 := solve_ok kit decay next sd idn rd LivPrb DiscFac CRRA Rfree
    PermGroFac BoroCnstArt aXtraGrid ShareGrid vFuncBool AdjustPrb
    DiscreteShareBool ShareLimit IndepDstnBool sol h
  have hvb := solve_ok_config kit decay next sd idn rd LivPrb DiscFac CRRA
    Rfree PermGroFac BoroCnstArt aXtraGrid ShareGrid vFuncBool AdjustPrb
    DiscreteShareBool ShareLimit IndepDstnBool sol h
  have hprN : ∀ row ∈ (if IndepDstnBool then
      indepPath kit next idn rd LivPrb DiscFac Rfree PermGroFac aXtraGrid
        ShareGrid vFuncBool AdjustPrb
    else
      jointPath kit next sd LivPrb DiscFac Rfree PermGroFac aXtraGrid
        ShareGrid vFuncBool AdjustPrb).EndOfPrddvdaNvrs,
      ∀ x ∈ row, 0 ≤ x := by
    cases IndepDstnBool with
    | false =>
      rw [if_neg (by simp), jointPath_Nvrs]
      intro row hrow x hx
      obtain ⟨r, _, rfl⟩ := List.mem_map.mp hrow
      obtain ⟨y, _, rfl⟩ := List.mem_map.mp hx
      exact hUP y
    | true =>
      rw [if_pos rfl, indepPath_Nvrs]
      intro row hrow x hx
      obtain ⟨r, _, rfl⟩ := List.mem_map.mp hrow
      obtain ⟨y, _, rfl⟩ := List.mem_map.mp hx
      exact hUP y
  have hprA : ∀ a ∈ (if IndepDstnBool then
      indepPath kit next idn rd LivPrb DiscFac Rfree PermGroFac aXtraGrid
        ShareGrid vFuncBool AdjustPrb
    else
      jointPath kit next sd LivPrb DiscFac Rfree PermGroFac aXtraGrid
        ShareGrid vFuncBool AdjustPrb).aNrmGrid, 0 ≤ a := by
    cases IndepDstnBool with
    | false =>
      rw [if_neg (by simp), jointPath_aNrmGrid, aNrmGrid_joint_eq_indep]
      exact aNrmGrid_indep_nonneg _ _ hAX
    | true =>
      rw [if_pos rfl, indepPath_aNrmGrid]
      exact aNrmGrid_indep_nonneg _ _ hAX
  rcases shareFork_ok _ _ _ _ _ _ _ _ _ _ _ h2 with ⟨hd, rfl⟩ |
    ⟨hd, rows, hrows, _, rfl⟩
  · have hv : vFuncBool = true := hvb hd
    subst hv
    obtain ⟨hNv, hV⟩ := path_lengths kit next sd idn rd LivPrb DiscFac Rfree
      PermGroFac aXtraGrid ShareGrid AdjustPrb IndepDstnBool
    obtain ⟨hsnlen, hcnlen⟩ := discreteShares_lengths_of _ ShareGrid _ _ _
      hV hNv
    obtain ⟨hsn, hcn⟩ := discreteShares_mem _ ShareGrid _ _ hSG hprN
    obtain ⟨he0, hex⟩ := assembled_cFuncAdj_facts kit decay _ ShareGrid CRRA
      true AdjustPrb true ShareLimit aXtraGrid _ _ hprA hcn hcnlen
    refine ⟨he0, hex, ?_⟩
    refine ⟨_, _, none,
      assembleSolution_ShareFuncAdj_disc kit decay _ ShareGrid CRRA true
        AdjustPrb ShareLimit aXtraGrid _ _, ?_, ?_⟩
    · intro y hy
      obtain ⟨s2, hs2, hy2⟩ := List.mem_flatMap.mp hy
      have hys : y = s2 := by
        rcases List.mem_cons.mp hy2 with rfl | hy3
        · rfl
        · simpa using hy3
      rw [hys]
      exact hsn s2 hs2
    · intro m hm
      exact assembled_ShareFuncAdj_disc_range kit decay _ ShareGrid CRRA
        true AdjustPrb ShareLimit aXtraGrid _ _ m hsn hm hsnlen hcnlen
  · have hrowmem : ∀ p ∈ rows, (0 ≤ p.1 ∧ p.1 ≤ 1) ∧ 0 ≤ p.2 := by
      intro p hp
      obtain ⟨j, _, hfj⟩ := mapMOpt_mem _ _ _ hrows p hp
      have hnvj : ∀ x ∈ (if IndepDstnBool then
          indepPath kit next idn rd LivPrb DiscFac Rfree PermGroFac aXtraGrid
            ShareGrid vFuncBool AdjustPrb
        else
          jointPath kit next sd LivPrb DiscFac Rfree PermGroFac aXtraGrid
            ShareGrid vFuncBool AdjustPrb).EndOfPrddvdaNvrs.getD j [],
          0 ≤ x := by
        by_cases hlt : j < (if IndepDstnBool then
            indepPath kit next idn rd LivPrb DiscFac Rfree PermGroFac aXtraGrid
              ShareGrid vFuncBool AdjustPrb
          else
            jointPath kit next sd LivPrb DiscFac Rfree PermGroFac aXtraGrid
              ShareGrid vFuncBool AdjustPrb).EndOfPrddvdaNvrs.length
        · rw [List.getD_eq_getElem _ _ hlt]
          exact hprN _ (List.getElem_mem hlt)
        · rw [List.getD_eq_default _ _ (le_of_not_lt hlt)]
          intro x hx
          simp at hx
      obtain ⟨sh, c⟩ := p
      exact contShareRow_mem _ _ _ _ _ hSG hnvj sh c hfj
    have hsn : ∀ s ∈ rows.map Prod.fst, 0 ≤ s ∧ s ≤ 1 := by
      intro s hs
      obtain ⟨p, hp, rfl⟩ := List.mem_map.mp hs
      exact (hrowmem p hp).1
    have hcn : ∀ c ∈ rows.map Prod.snd, 0 ≤ c := by
      intro c hc
      obtain ⟨p, hp, rfl⟩ := List.mem_map.mp hc
      exact (hrowmem p hp).2
    have hrl : rows.length = (if IndepDstnBool then
        indepPath kit next idn rd LivPrb DiscFac Rfree PermGroFac aXtraGrid
          ShareGrid vFuncBool AdjustPrb
      else
        jointPath kit next sd LivPrb DiscFac Rfree PermGroFac aXtraGrid
          ShareGrid vFuncBool AdjustPrb).aNrmGrid.length := by
      have := mapMOpt_length _ _ _ hrows
      simpa [List.length_range] using this
    have hcl : (rows.map Prod.snd).length = (if IndepDstnBool then
        indepPath kit next idn rd LivPrb DiscFac Rfree PermGroFac aXtraGrid
          ShareGrid vFuncBool AdjustPrb
      else
        jointPath kit next sd LivPrb DiscFac Rfree PermGroFac aXtraGrid
          ShareGrid vFuncBool AdjustPrb).aNrmGrid.length := by
      rw [List.length_map]
      exact hrl
    obtain ⟨he0, hex⟩ := assembled_cFuncAdj_facts kit decay _ ShareGrid CRRA
      vFuncBool AdjustPrb false ShareLimit aXtraGrid _ _ hprA hcn hcl
    refine ⟨he0, hex, ?_⟩
    rw [assembleSolution_ShareFuncAdj_cont]
    have hys : ∀ y ∈ ((if (if IndepDstnBool then
        indepPath kit next idn rd LivPrb DiscFac Rfree PermGroFac aXtraGrid
          ShareGrid vFuncBool AdjustPrb
      else
        jointPath kit next sd LivPrb DiscFac Rfree PermGroFac aXtraGrid
          ShareGrid vFuncBool AdjustPrb).zero_bound then ShareLimit else 1)
        :: rows.map Prod.fst), 0 ≤ y ∧ y ≤ 1 := by
      intro y hy
      rcases List.mem_cons.mp hy with rfl | hy2
      · exact if_SL_mem01 _ ShareLimit hSL0 hSL1
      · exact hsn y hy2
    refine ⟨_, _, some (ShareLimit, 0), rfl, hys, ?_⟩
    intro m hm
    have hlen : (0 :: List.zipWith (fun a c => a + c) (if IndepDstnBool then
        indepPath kit next idn rd LivPrb DiscFac Rfree PermGroFac aXtraGrid
          ShareGrid vFuncBool AdjustPrb
      else
        jointPath kit next sd LivPrb DiscFac Rfree PermGroFac aXtraGrid
          ShareGrid vFuncBool AdjustPrb).aNrmGrid (rows.map Prod.snd)).length
        = (((if (if IndepDstnBool then
        indepPath kit next idn rd LivPrb DiscFac Rfree PermGroFac aXtraGrid
          ShareGrid vFuncBool AdjustPrb
      else
        jointPath kit next sd LivPrb DiscFac Rfree PermGroFac aXtraGrid
          ShareGrid vFuncBool AdjustPrb).zero_bound then ShareLimit else 1)
        :: rows.map Prod.fst)).length := by
      simp [List.length_zipWith, hrl]
    exact linterpEvalLim_range decay _ _ ShareLimit m hys hSL0 hSL1 hdec
      hlen hm

/-- Counterexample to C8 as stated: the concrete valid solve call solveC8
(configuration checks pass, probabilities sum to one, sorted positive
asset grid) returns an adjustable consumption function that DECREASES
between the non-negative resource levels 3 and 7/2, evaluating to 2 and
then 3/2, so it is not non-decreasing over non-negative resources. -/
theorem claim_C8_counterexample :
    (solutionOf solveC8).map (fun s => Fun1.eval kit1 decay0 s.cFuncAdj 3)
      = some 2
    ∧ (solutionOf solveC8).map
        (fun s => Fun1.eval kit1 decay0 s.cFuncAdj (7 / 2))
      = some (3 / 2)
    ∧ (0 : ℚ) ≤ 3 ∧ (3 : ℚ) < 7 / 2 ∧ ¬ ((2 : ℚ) ≤ 3 / 2) := by
  refine ⟨by with_unfolding_all rfl, by with_unfolding_all rfl,
    by norm_num, by norm_num, by norm_num⟩

/-- Witness for C8 as amended at the concrete solve call solveC8W with
the everywhere-one marginal-utility inverse. -/
theorem claim_C8_witness :
    Fun1.eval kitW decay0 solC8W.cFuncAdj 0 = 0
    ∧ (∃ xs ys, solC8W.cFuncAdj = Fun1.LinearInterp xs ys none
        ∧ (∀ y ∈ ys, 0 ≤ y)
        ∧ ∀ m, 0 ≤ m → m ≤ xs.getLastD 0 →
            0 ≤ Fun1.eval kitW decay0 solC8W.cFuncAdj m)
    ∧ (∃ xs ys lim, solC8W.ShareFuncAdj = Fun1.LinearInterp xs ys lim
        ∧ (∀ y ∈ ys, 0 ≤ y ∧ y ≤ 1)
        ∧ ∀ m, 0 ≤ m →
            0 ≤ Fun1.eval kitW decay0 solC8W.ShareFuncAdj m
            ∧ Fun1.eval kitW decay0 solC8W.ShareFuncAdj m ≤ 1) :=
  claim_C8 kitW decay0 nextT jointD1 incD1 riskyD1 1 1 1 1 1 0 [1] [0, 1]
    false 1 false (1 / 2) false solC8W
    (fun x => by norm_num [kitW])
    (fun s hs => by fin_cases hs <;> norm_num)
    (by norm_num) (by norm_num)
    (fun a ha => by fin_cases ha; norm_num)
    (fun t => by norm_num [decay0])
    solveC8W_ok

end ConsPortfolioModel
